import Mathlib

/-!
Verification development for the Meraki Teams bot (repository files
`app.py` and `cv_generator.py`).

The development shallowly embeds the routing / conversation-state core of
`app.py` (help handling, pending-role storage with TTL, refinement state,
trigger resolution, the per-turn router `on_turn`) and the deterministic
pieces of `cv_generator.py` (`parse_cv_json` and the document builder
`create_meraki_cv`).  External collaborators (the OpenAI calls, Azure
table/blob storage, attachment download and binary text extraction) are
modelled as oracle parameters / plain inputs, exactly at the interfaces the
Python code uses them.

Python string operations used by the source (`str.strip`, `str.lower`,
`str.split`, `' '.join`, `in`, slicing, `startswith`, `endswith`) are
defined here over `List Char` with Python's semantics, so that the embedded
code can be both executed and reasoned about.
-/

namespace MerakiBot

/-! ## Python string primitives -/

/-- Python `str.strip` whitespace set (ASCII part relevant here). -/
def isPyWs (c : Char) : Bool :=
  c = ' ' || c = '\t' || c = '\n' || c = '\r' || c = '\x0b' || c = '\x0c'

/-- Left part of Python `strip`. -/
def pyStripLChars : List Char → List Char
  | [] => []
  | c :: cs => if isPyWs c then pyStripLChars cs else c :: cs

/-- Right part of Python `strip`. -/
def pyStripRChars : List Char → List Char
  | [] => []
  | c :: cs =>
    match pyStripRChars cs with
    | [] => if isPyWs c then [] else [c]
    | r => c :: r

/-- Python `str.strip()` on a char list. -/
def pyStripChars (l : List Char) : List Char := pyStripRChars (pyStripLChars l)

/-- Python `str.strip()`. -/
def pyStrip (s : String) : String := String.mk (pyStripChars s.data)

/-- Python `str.lower()` (ASCII case mapping, all inputs here are ASCII). -/
def pyLower (s : String) : String := String.mk (s.data.map Char.toLower)

/-- Accumulator pass of Python's no-argument `str.split()`:
whitespace runs separate words, empty words are dropped. -/
def wordsAux : List Char → List Char → List (List Char)
  | [], acc => if acc = [] then [] else [acc.reverse]
  | c :: cs, acc =>
    if isPyWs c then
      if acc = [] then wordsAux cs [] else acc.reverse :: wordsAux cs []
    else wordsAux cs (c :: acc)

/-- Python `str.split()` with no argument. -/
def pyWords (s : String) : List String := (wordsAux s.data []).map String.mk

/-- `' '.join` on char lists. -/
def joinChars : List (List Char) → List Char
  | [] => []
  | [w] => w
  | w :: w' :: ws => w ++ ' ' :: joinChars (w' :: ws)

/-- Python `' '.join(words)`. -/
def strJoin (ws : List String) : String := String.mk (joinChars (ws.map String.data))

/-- Python `sep.join(xs)` for a general separator. -/
def joinSep (sep : String) : List String → String
  | [] => ""
  | [x] => x
  | x :: x' :: xs => x ++ sep ++ joinSep sep (x' :: xs)

/-- Python `s.startswith(p)` where `p` is a single character. -/
def startsWithChar (s : String) (c : Char) : Bool :=
  match s.data with
  | [] => false
  | d :: _ => d = c

/-- Python `s.startswith(p)` for a string `p`. -/
def startsWithS (s p : String) : Bool := p.data.isPrefixOf s.data

/-- Python `s.endswith(p)` for a string `p`. -/
def endsWithS (s p : String) : Bool := p.data.reverse.isPrefixOf s.data.reverse

/-- Python `s[n:]`. -/
def strDropN (n : Nat) (s : String) : String := String.mk (s.data.drop n)

/-- Python `s[:-n]` (for `n ≤ len(s)`; clamps like Python slicing). -/
def strDropLastN (n : Nat) (s : String) : String :=
  String.mk (s.data.take (s.data.length - n))

/-- Python `s[:n]`. -/
def strTakeN (n : Nat) (s : String) : String := String.mk (s.data.take n)

/-- Python substring containment `pat in l`. -/
def containsSub (pat : List Char) : List Char → Bool
  | [] => pat.isEmpty
  | c :: tl => pat.isPrefixOf (c :: tl) || containsSub pat tl

/-- Python `pat in s` on strings. -/
def containsSubS (s pat : String) : Bool := containsSub pat.data s.data

/-- Python `s[:60000] if len(s) > 60000 else s` (Azure table value cap used by
`set_refinement_state`). -/
def pyTruncate60000 (s : String) : String :=
  if s.data.length > 60000 then strTakeN 60000 s else s

/-! ## JSON values for `parse_cv_json` (`cv_generator.py`)

`parse_cv_json` feeds the model's text through Python's `json.loads` after
stripping markdown code fences.  StructuredCV-shaped payloads consist of
strings, arrays and objects only (see `CV_EXTRACTION_PROMPT`), so the JSON
fragment embedded here covers exactly those three forms; the parser mirrors
`json.loads` on that fragment (whitespace tolerant, whole-input consumption,
double-quoted strings). -/

mutual

inductive Json where
  | str (s : String)
  | arr (elems : JList)
  | obj (fields : JObj)
deriving DecidableEq

inductive JList where
  | nil
  | cons (head : Json) (tail : JList)
deriving DecidableEq

inductive JObj where
  | nil
  | cons (key : String) (value : Json) (tail : JObj)
deriving DecidableEq

end

mutual

/-- Serialize a `Json` value without extraneous whitespace (the canonical
`json.dumps(v, separators=(",", ":"))` form used to state the round trip). -/
def renderJ : Json → List Char
  | .str s => '"' :: (s.data ++ ['"'])
  | .arr l => '[' :: (renderL l ++ [']'])
  | .obj f => '{' :: (renderO f ++ ['}'])

def renderL : JList → List Char
  | .nil => []
  | .cons j .nil => renderJ j
  | .cons j (.cons j' t) => renderJ j ++ ',' :: renderL (.cons j' t)

def renderO : JObj → List Char
  | .nil => []
  | .cons k v .nil => '"' :: (k.data ++ '"' :: ':' :: renderJ v)
  | .cons k v (.cons k' v' t) =>
      ('"' :: (k.data ++ '"' :: ':' :: renderJ v)) ++ ',' :: renderO (.cons k' v' t)

end

/-- `renderJ` as a `String`. -/
def renderS (j : Json) : String := String.mk (renderJ j)

mutual

/-- Size measure used as parser fuel. -/
def jsize : Json → Nat
  | .str _ => 1
  | .arr l => 1 + jsizeL l
  | .obj f => 1 + jsizeO f

def jsizeL : JList → Nat
  | .nil => 0
  | .cons j t => 1 + jsize j + jsizeL t

def jsizeO : JObj → Nat
  | .nil => 0
  | .cons _ v t => 1 + jsize v + jsizeO t

end

mutual

/-- A string is clean when serializing it needs no JSON escaping: no quote,
no backslash, no control characters.  On clean payloads the embedded parser
and Python's `json.loads` agree. -/
def cleanStr (s : String) : Bool :=
  s.data.all fun c => c ≠ '"' && c ≠ '\\' && c.toNat ≥ 32

def cleanJ : Json → Bool
  | .str s => cleanStr s
  | .arr l => cleanL l
  | .obj f => cleanO f

def cleanL : JList → Bool
  | .nil => true
  | .cons j t => cleanJ j && cleanL t

def cleanO : JObj → Bool
  | .nil => true
  | .cons k v t => cleanStr k && cleanJ v && cleanO t

end

/-- JSON whitespace accepted between tokens by `json.loads`. -/
def isJsonWs (c : Char) : Bool := c = ' ' || c = '\t' || c = '\n' || c = '\r'

/-- Skip JSON whitespace. -/
def skipWs : List Char → List Char
  | [] => []
  | c :: cs => if isJsonWs c then skipWs cs else c :: cs

/-- Parse the body of a string literal after the opening quote, up to the
closing quote (escape-free fragment). -/
def parseStrBody : List Char → Option (List Char × List Char)
  | [] => none
  | c :: cs =>
    if c = '"' then some ([], cs)
    else
      match parseStrBody cs with
      | some (s, r) => some (c :: s, r)
      | none => none

mutual

/-- Recursive-descent JSON value parser (fuelled). -/
def parseValue : Nat → List Char → Option (Json × List Char)
  | 0, _ => none
  | Nat.succ fuel, cs =>
    match skipWs cs with
    | [] => none
    | c :: rest =>
      if c = '"' then
        match parseStrBody rest with
        | some (s, r) => some (.str (String.mk s), r)
        | none => none
      else if c = '[' then
        match skipWs rest with
        | [] => none
        | d :: r2 =>
          if d = ']' then some (.arr .nil, r2)
          else
            match parseItems fuel rest with
            | some (l, r) => some (.arr l, r)
            | none => none
      else if c = '{' then
        match skipWs rest with
        | [] => none
        | d :: r2 =>
          if d = '}' then some (.obj .nil, r2)
          else
            match parseFields fuel rest with
            | some (f, r) => some (.obj f, r)
            | none => none
      else none

/-- Parse one-or-more comma-separated array items up to the closing `]`. -/
def parseItems : Nat → List Char → Option (JList × List Char)
  | 0, _ => none
  | Nat.succ fuel, cs =>
    match parseValue fuel cs with
    | some (j, r) =>
      match skipWs r with
      | [] => none
      | d :: r2 =>
        if d = ',' then
          match parseItems fuel r2 with
          | some (l, r3) => some (.cons j l, r3)
          | none => none
        else if d = ']' then some (.cons j .nil, r2)
        else none
    | none => none

/-- Parse one-or-more comma-separated object members up to the closing `}`. -/
def parseFields : Nat → List Char → Option (JObj × List Char)
  | 0, _ => none
  | Nat.succ fuel, cs =>
    match skipWs cs with
    | [] => none
    | c :: rest =>
      if c = '"' then
        match parseStrBody rest with
        | some (k, r) =>
          match skipWs r with
          | [] => none
          | d :: r2 =>
            if d = ':' then
              match parseValue fuel r2 with
              | some (v, r3) =>
                match skipWs r3 with
                | [] => none
                | e :: r4 =>
                  if e = ',' then
                    match parseFields fuel r4 with
                    | some (f, r5) => some (.cons (String.mk k) v f, r5)
                    | none => none
                  else if e = '}' then some (.cons (String.mk k) v .nil, r4)
                  else none
              | none => none
            else none
        | none => none
      else none

end

/-- `json.loads` on the StructuredCV fragment: parse one value, require the
rest of the input to be whitespace. -/
def jsonLoads (l : List Char) : Option Json :=
  match parseValue (l.length + 1) l with
  | some (j, rest) => if skipWs rest = [] then some j else none
  | none => none

/-- `parse_cv_json` from `cv_generator.py`: strip the input, remove a leading
markdown fence (```json / ```), remove a trailing fence, strip again, try
`json.loads`, and on failure fall back to the first `{` … last `}` slice;
raises `ValueError` (here `Except.error`) if everything fails. -/
def parseCvJson (aiResponse : String) : Except String Json :=
  let text := pyStrip aiResponse
  let text :=
    if startsWithS text "```json" then strDropN 7 text
    else if startsWithS text "```" then strDropN 3 text
    else text
  let text := if endsWithS text "```" then strDropLastN 3 text else text
  let text := pyStrip text
  match jsonLoads text.data with
  | some j => Except.ok j
  | none =>
    match text.data.findIdx? (· = '{'), text.data.reverse.findIdx? (· = '}') with
    | some s, some rIdx =>
      let e := text.data.length - 1 - rIdx
      match jsonLoads ((text.data.drop s).take (e + 1 - s)) with
      | some j => Except.ok j
      | none => Except.error "Could not parse CV data as JSON"
    | _, _ => Except.error "Could not parse CV data as JSON"

/-! ## Document layout engine (`create_meraki_cv`, `cv_generator.py`)

A document is modelled as the ordered list of paragraphs `create_meraki_cv`
emits, each tagged by the helper that produced it (`add_section_header`,
`add_field_line`, `add_tabbed_line`, `add_indented_line`, `add_position_line`,
`add_work_section_header`, `add_bullet_point`, plain `add_paragraph`, the
inline bold-label paragraphs, and the logo/blank paragraphs).  The shading,
fonts and tab-stop geometry are constant per tag in the source, so the tag
plus the text determines the rendered paragraph. -/

mutual

/-- A work-experience content item: either a plain string bullet or a dict
with `text` and `sub_bullets` (`add_nested_bullets` input shape). -/
inductive BItem where
  | s (text : String)
  | node (text : String) (subs : BItems)

inductive BItems where
  | nil
  | cons (head : BItem) (tail : BItems)

end

/-- One education entry. -/
structure Edu where
  dates : String
  title : String
  institution : String
  details : List String

/-- One sub-section of a work-experience entry. -/
structure WorkSection where
  header : String
  content : List BItem

/-- One work-experience entry (`sections` preferred, `bullets` legacy). -/
structure WorkExp where
  dates : String
  company : String
  position : String
  sections : List WorkSection
  bullets : List BItem

/-- One detailed entry inside an other-information category. -/
structure OtherEntry where
  organization : String
  dates : String
  role : String
  bullets : List BItem

/-- One other-information category. -/
structure OtherInfo where
  category : String
  content : List String
  entries : List OtherEntry

/-- The StructuredCV payload consumed by `create_meraki_cv` (absent optional
fields are empty strings / empty lists, matching `dict.get` defaults). -/
structure CVData where
  name : String
  location : String
  right_to_work : String
  notice : String
  salary_expectations : String
  it_systems : String
  languages : String
  interests : String
  profile : String
  professional_qualifications : List String
  education : List Edu
  work_experience : List WorkExp
  other_information : List OtherInfo

/-- A paragraph of the generated document, tagged by the helper that made it. -/
inductive DocElem where
  | blank
  | logo
  | sectionHeader (text : String)
  | fieldLine (label : String) (value : String)
  | boldLabelPara (label : String) (value : String)
  | boldLine (text : String)
  | qualItem (text : String)
  | tabbedLine (left : String) (right : String) (bold : Bool)
  | indentedLine (text : String)
  | positionLine (text : String)
  | workSectionHeader (text : String)
  | bulletPoint (level : Nat) (text : String)
  | justPara (text : String)
  | plainPara (text : String)
  | catHeaderUnderline (text : String)
  | catHeaderColon (text : String)
deriving DecidableEq

/-- Bullet glyph cycle used by `add_bullet_point` (level-capped at 3). -/
def bulletGlyph (level : Nat) : Char :=
  if level = 0 then '•' else if level = 1 then '–' else if level = 2 then '›' else '○'

mutual

/-- `add_nested_bullets`: a string renders one bullet; a dict renders its
`text` (if non-empty) then its `sub_bullets` one level deeper. -/
def nestedBullets : BItem → Nat → List DocElem
  | .s text, level => [.bulletPoint level text]
  | .node text subs, level =>
    (if text ≠ "" then [.bulletPoint level text] else []) ++ nestedBulletsL subs (level + 1)

def nestedBulletsL : BItems → Nat → List DocElem
  | .nil, _ => []
  | .cons b t, level => nestedBullets b level ++ nestedBulletsL t level

end

/-- Interleave a blank line between blocks (the `if i < len - 1: add_blank_line`
pattern used between education entries and between jobs). -/
def sepBlank : List (List DocElem) → List DocElem
  | [] => []
  | [b] => b
  | b :: b' :: bs => b ++ .blank :: sepBlank (b' :: bs)

/-- One education entry's paragraphs. -/
def eduEntry (e : Edu) : List DocElem :=
  [.tabbedLine e.dates e.title true] ++
    (if e.institution ≠ "" then [.indentedLine e.institution] else []) ++
    e.details.map .indentedLine

/-- One work-experience entry's paragraphs. -/
def workEntry (job : WorkExp) : List DocElem :=
  [.tabbedLine job.dates job.company true] ++
    (if job.position ≠ "" then [.positionLine job.position] else []) ++
    (if job.sections.isEmpty then
      job.bullets.flatMap (fun b => nestedBullets b 0)
    else
      job.sections.flatMap (fun sec =>
        (if sec.header ≠ "" then [.blank, .workSectionHeader sec.header] else []) ++
          sec.content.flatMap (fun item => nestedBullets item 0)))

/-- One other-information category's paragraphs. -/
def otherEntryBlock (item : OtherInfo) : List DocElem :=
  if !item.entries.isEmpty then
    [.catHeaderUnderline item.category] ++
      item.entries.flatMap (fun entry =>
        (if entry.organization ≠ "" ∨ entry.dates ≠ "" then
          [.tabbedLine entry.dates entry.organization true] else []) ++
        (if entry.role ≠ "" then [.indentedLine entry.role] else []) ++
        entry.bullets.flatMap (fun b => nestedBullets b 0)) ++
      [.blank]
  else if !item.content.isEmpty then
    (if item.category ≠ "" then [.catHeaderColon item.category] else [.blank]) ++
      item.content.map .plainPara
  else []

/-- Logo block (page-1 body logo, emitted when the asset file exists). -/
def logoSegment (logoExists : Bool) : List DocElem :=
  if logoExists then [.blank, .logo, .blank] else []

/-- PERSONAL DETAILS section (optional fields only when non-empty). -/
def personalSegment (cv : CVData) : List DocElem :=
  [.sectionHeader "PERSONAL DETAILS", .blank, .fieldLine "Name" cv.name] ++
    (if cv.location ≠ "" then [.fieldLine "Location" cv.location] else []) ++
    (if cv.right_to_work ≠ "" then [.fieldLine "Right to Work" cv.right_to_work] else []) ++
    (if cv.notice ≠ "" then [.fieldLine "Notice" cv.notice] else []) ++
    (if cv.salary_expectations ≠ "" then
      [.fieldLine "Salary expectations" cv.salary_expectations] else [])

/-- IT/Systems, Languages, Interests lines (always shown; `"N/A"` when the
field is empty). -/
def itSegment (cv : CVData) : List DocElem :=
  [.blank,
   .boldLabelPara "IT/Systems: " (if cv.it_systems ≠ "" then cv.it_systems else "N/A"),
   .boldLabelPara "Languages: " (if cv.languages ≠ "" then cv.languages else "N/A"),
   .boldLabelPara "Interests: " (if cv.interests ≠ "" then cv.interests else "N/A")]

/-- EDUCATION section (shown when education or professional qualifications
are present). -/
def eduSegment (cv : CVData) : List DocElem :=
  if !cv.education.isEmpty || !cv.professional_qualifications.isEmpty then
    [.blank, .sectionHeader "EDUCATION", .blank] ++
      (if !cv.professional_qualifications.isEmpty then
        [.boldLine "Professional Qualifications:"] ++
          cv.professional_qualifications.map .qualItem ++ [.blank]
      else []) ++
      sepBlank (cv.education.map eduEntry)
  else []

/-- CANDIDATE PROFILE section. -/
def profileSegment (cv : CVData) : List DocElem :=
  if cv.profile ≠ "" then
    [.blank, .sectionHeader "CANDIDATE PROFILE", .blank] ++
      (cv.profile.splitOn "\n\n").map (fun p => .justPara (pyStrip p))
  else []

/-- WORK EXPERIENCE section. -/
def workSegment (cv : CVData) : List DocElem :=
  if !cv.work_experience.isEmpty then
    [.blank, .blank, .sectionHeader "WORK EXPERIENCE", .blank] ++
      sepBlank (cv.work_experience.map workEntry)
  else []

/-- OTHER INFORMATION section. -/
def otherSegment (cv : CVData) : List DocElem :=
  if !cv.other_information.isEmpty then
    [.blank, .sectionHeader "OTHER INFORMATION", .blank] ++
      cv.other_information.flatMap otherEntryBlock
  else []

/-- `create_meraki_cv`: the full ordered paragraph list of the generated
document.  `logoExists` models `os.path.exists(LOGO_PATH)`. -/
def createMerakiCv (logoExists : Bool) (cv : CVData) : List DocElem :=
  logoSegment logoExists ++ personalSegment cv ++ itSegment cv ++ eduSegment cv ++
    profileSegment cv ++ workSegment cv ++ otherSegment cv

/-! ## Role registry (`app.py`)

Roles are modelled as the built-in default set returned by
`get_default_roles()`: `load_roles_from_table` falls back to it whenever no
Azure table service is configured, and `get_roles` serves it through the
cache.  Only the fields the router consults are kept (`id`, `name`,
`trigger`, `aliases`, and whether `output_type == "word"`); the system
prompts only feed the LLM call, which is an oracle here. -/

structure Role where
  id : String
  name : String
  trigger : String
  aliases : List String
  outputWord : Bool
deriving DecidableEq

/-- `get_default_roles()` in registration order (Python dicts preserve
insertion order, which drives the step-3 substring scan). -/
def defaultRoles : List Role :=
  [⟨"spec", "CV to Spec Email", "spec", ["cv", "candidate", "specification"], false⟩,
   ⟨"profile", "Candidate Profile", "profile", ["blurb"], false⟩,
   ⟨"ad", "Job Advert", "ad", ["advert", "jobad"], false⟩,
   ⟨"jd", "Job Description", "jd", ["jobdesc"], false⟩,
   ⟨"pitch", "Candidate Pitch Script", "pitch", ["script", "sell"], false⟩,
   ⟨"outreach", "LinkedIn Outreach", "outreach", ["linkedin", "inmail"], false⟩,
   ⟨"reformat", "CV Reformat", "reformat", ["format", "template"], true⟩]

/-- `roles[role_id]` lookup. -/
def lookupRole (rid : String) : Option Role := defaultRoles.find? (fun r => r.id = rid)

/-- The `trigger_to_role` dictionary in insertion order: for each role its
trigger then its aliases (all keys are distinct for the default set, so
first-match association lookup equals Python dict lookup). -/
def triggerToRole : List (String × String) :=
  defaultRoles.flatMap (fun r =>
    (pyLower r.trigger, r.id) :: r.aliases.map (fun a => (pyLower a, r.id)))

/-- Dictionary lookup `trigger_to_role.get(w)`. -/
def trigLookup (w : String) : Option String :=
  (triggerToRole.find? (fun p => p.1 = w)).map Prod.snd

/-- `check_explicit_trigger(message)`: prefix (`/`/`!` + trigger) or exact
first-word trigger/alias match only — no AI classification. -/
def checkExplicitTrigger (message : String) : Option String :=
  if message = "" then none
  else
    let ml := pyStrip (pyLower message)
    match pyWords ml with
    | [] => none
    | w :: _ =>
      (if w.data.length > 1 ∧ (startsWithChar w '/' ∨ startsWithChar w '!') then
        trigLookup (strDropN 1 w)
      else none).orElse (fun _ => trigLookup w)

/-! ## Conversation state (`app.py` Azure Table Storage wrappers)

The Azure `BotState` table holds at most one `pending_role` row and one
`refinement` row per conversation (row key = hash of the conversation id;
upsert semantics).  The model tracks one conversation's two rows directly;
timestamps are `time.time()` seconds as integers. -/

structure PendingEntry where
  roleId : String
  timestamp : Int
deriving DecidableEq

structure RefinementEntry where
  output : String
  roleId : String
  timestamp : Int
deriving DecidableEq

structure ConvState where
  pendingRole : Option PendingEntry
  refinement : Option RefinementEntry
deriving DecidableEq

/-- `PENDING_ROLE_TTL_SECONDS = 300`. -/
def pendingRoleTtl : Int := 300

/-- `REFINEMENT_TTL_SECONDS = 1800`. -/
def refinementTtl : Int := 1800

/-- `get_pending_role`: returns the stored role while the entry is younger
than the TTL; an expired entry is deleted as a side effect of the read. -/
def getPendingRole (now : Int) (st : ConvState) : Option String × ConvState :=
  match st.pendingRole with
  | none => (none, st)
  | some e =>
    if now - e.timestamp < pendingRoleTtl then (some e.roleId, st)
    else (none, { st with pendingRole := none })

/-- `set_pending_role`: upsert with a fresh timestamp. -/
def setPendingRole (now : Int) (rid : String) (st : ConvState) : ConvState :=
  { st with pendingRole := some ⟨rid, now⟩ }

/-- `clear_pending_role`. -/
def clearPendingRole (st : ConvState) : ConvState := { st with pendingRole := none }

/-- `get_refinement_state` (30-minute TTL, lazy expiry on read). -/
def getRefinementState (now : Int) (st : ConvState) : Option RefinementEntry × ConvState :=
  match st.refinement with
  | none => (none, st)
  | some e =>
    if now - e.timestamp < refinementTtl then (some e, st)
    else (none, { st with refinement := none })

/-- `set_refinement_state`: upsert, truncating the output to 60000 chars
(Azure table property cap). -/
def setRefinementState (now : Int) (output : String) (rid : String) (st : ConvState) :
    ConvState :=
  { st with refinement := some ⟨pyTruncate60000 output, rid, now⟩ }

/-- `clear_refinement_state`. -/
def clearRefinementState (st : ConvState) : ConvState := { st with refinement := none }

/-! ## Per-turn router (`on_turn`, `app.py`) -/

/-- `turn_context.activity.value` — the Adaptive Card submit payload. -/
structure CardData where
  action : Option String
  role : Option String
deriving DecidableEq

/-- Result of `extract_text_from_attachment` on one attachment, together with
the fields of the attachment the loop in `on_turn` reads.  A result starting
with `[` is the extractor's bracketed error sentinel
(`[Unsupported file type: …]` / `[Error extracting text from …]`). -/
structure AttachmentResult where
  name : String
  contentType : String
  extracted : String
deriving DecidableEq

/-- One inbound message turn. -/
structure TurnInput where
  userText : String
  attachments : List AttachmentResult
  card : Option CardData
deriving DecidableEq

/-- External calls made by a turn: the step-4 intent classifier (`none`
models an exception), the refinement completion and the per-role completion
(`Except.error` models a raised exception whose text is `str(e)`). -/
structure Oracles where
  classify : String → Option String
  refineLLM : String → String → String → Except String String
  roleLLM : String → String → Except String String

/-- The outbound reply of one turn, tagged by which `send_activity` call in
`on_turn` produced it. -/
inductive TurnAction where
  | showHelp
  | showHelpUnsure
  | exitRefinementMsg
  | askContent (roleId : String)
  | askContentAgain (roleId : String)
  | sentBracket (text : String)
  | refined (output : String)
  | roleReply (roleId : String) (output : String)
  | wordDoc (roleId : String) (raw : String)
  | parseError (roleId : String) (msg : String) (raw : String)
  | aiError (roleId : String) (msg : String)
  | crash
deriving DecidableEq

/-- The role id of the turn's role-LLM call (the `openai_client` call with
the role's system prompt), when one was made. -/
def actionRole : TurnAction → Option String
  | .roleReply r _ => some r
  | .wordDoc r _ => some r
  | .parseError r _ _ => some r
  | .aiError r _ => some r
  | _ => none

/-- `refine_output`: returns the completion, or
`"Error refining output: " + str(e)` when the call raises. -/
def refineOutput (o : Oracles) (originalOutput userInstruction roleId : String) : String :=
  match o.refineLLM originalOutput userInstruction roleId with
  | .ok s => s
  | .error e => "Error refining output: " ++ e

/-- Step 0 of `resolve_role`: the Adaptive Card button (`select_role` action
with a role id that is in the registry). -/
def cardRole (card : Option CardData) : Option String :=
  match card with
  | some cd =>
    if cd.action = some "select_role" then
      match cd.role with
      | some rid => if (lookupRole rid).isSome then some rid else none
      | none => none
    else none
  | none => none

/-- Steps 1-5 of `resolve_role` on the message text: `/`/`!` prefix, exact
first word, substring scan, then the LLM intent classifier; `(none, "")`
models Python's `(None, None)` (both are falsy downstream). -/
def resolveRoleText (o : Oracles) (message : String) : Option String × String :=
  if message = "" then (none, "")
  else
    let ml := pyStrip (pyLower message)
    let ws := pyWords ml
    match (match ws with
           | w :: rest =>
             if w.data.length > 1 ∧ (startsWithChar w '/' ∨ startsWithChar w '!') then
               (trigLookup (strDropN 1 w)).map (fun rid => (rid, strJoin rest))
             else none
           | [] => none) with
    | some (rid, rem) => (some rid, rem)
    | none =>
      match (match ws with
             | w :: rest => (trigLookup w).map (fun rid => (rid, strJoin rest))
             | [] => none) with
      | some (rid, rem) => (some rid, rem)
      | none =>
        match triggerToRole.find? (fun p => containsSubS ml p.1) with
        | some p => (some p.2, message)
        | none =>
          match o.classify message with
          | some raw =>
            match trigLookup (pyLower (pyStrip raw)) with
            | some rid => (some rid, message)
            | none => (none, "")
          | none => (none, "")

/-- `resolve_role(message, card_data)`: card button first, then the text
steps. -/
def resolveRole (o : Oracles) (message : String) (card : Option CardData) :
    Option String × String :=
  match cardRole card with
  | some rid => (some rid, "")
  | none => resolveRoleText o message

/-- The help/reset keyword list checked first in `on_turn`
(`user_text.lower().strip() in [...]`). -/
def helpKeywords : List String := ["help", "/help", "menu", "start", "hi", "hello"]

/-- The per-attachment accumulation loop of `on_turn`: image attachments are
skipped; successful extractions are wrapped with a `--- Content from … ---`
banner; bracketed sentinels are kept verbatim; empty extractions dropped. -/
def attachmentTextsOf (atts : List AttachmentResult) : List String :=
  (atts.filter (fun a => !(startsWithS a.contentType "image/"))).filterMap (fun a =>
    if a.extracted ≠ "" ∧ ¬ startsWithChar a.extracted '[' then
      some ("--- Content from " ++ a.name ++ " ---\n" ++ a.extracted)
    else if startsWithChar a.extracted '[' then some a.extracted
    else none)

/-- `combined_input`: the user text joined with the extracted file content. -/
def combinedInputOf (userText : String) (attachmentTexts : List String) : String :=
  if attachmentTexts.isEmpty then userText
  else
    let fileContent := joinSep "\n\n" attachmentTexts
    if userText ≠ "" then userText ++ "\n\n" ++ fileContent else fileContent

/-- The tail of `on_turn` once a role id is fixed: `roles[role_id]` (a missing
id raises `KeyError` → `crash`), `final_content` selection, the bracket/empty
guard, the role LLM call, and the word-document vs refinement-mode reply. -/
def processWithRole (o : Oracles) (now : Int) (attachmentTexts : List String)
    (combined : String) (rid : String) (content : String) (st : ConvState) :
    TurnAction × ConvState :=
  match lookupRole rid with
  | none => (.crash, st)
  | some role =>
    let finalContent := if !attachmentTexts.isEmpty then combined
      else if content ≠ "" then content else combined
    if finalContent = "" ∨ startsWithChar finalContent '[' then
      if finalContent ≠ "" ∧ startsWithChar finalContent '[' then
        (.sentBracket finalContent, st)
      else (.askContentAgain rid, st)
    else
      match o.roleLLM rid finalContent with
      | .error e => (.aiError rid e, st)
      | .ok reply =>
        if role.outputWord then
          match parseCvJson reply with
          | .ok _ => (.wordDoc rid reply, st)
          | .error e => (.parseError rid e reply, st)
        else
          (.roleReply rid reply, setRefinementState now reply rid st)

/-- The routing tail of `on_turn` shared by the refinement-exit path and the
normal `resolve_role` path: the card+refinement clear, the pending-role save
for contentless button presses, and the pending-role fallback. -/
def routeTurn (o : Oracles) (now : Int) (inp : TurnInput) (refWasSome : Bool)
    (roleId : Option String) (content : String) (attachmentTexts : List String)
    (combined : String) (st : ConvState) : TurnAction × ConvState :=
  let st := if inp.card.isSome ∧ refWasSome then clearRefinementState st else st
  match roleId with
  | some rid =>
    if inp.card.isSome ∧ pyStrip combined = "" then
      match lookupRole rid with
      | none => (.crash, st)
      | some _ => (.askContent rid, setPendingRole now rid st)
    else processWithRole o now attachmentTexts combined rid content st
  | none =>
    let res := getPendingRole now st
    match res.1 with
    | some pending =>
      if combined ≠ "" ∧ ¬ startsWithChar combined '[' then
        processWithRole o now attachmentTexts combined pending combined
          (clearPendingRole res.2)
      else (.showHelp, res.2)
    | none =>
      if combined ≠ "" ∧ ¬ startsWithChar combined '[' then (.showHelpUnsure, res.2)
      else (.showHelp, res.2)

/-- `on_turn` for a `"message"` activity: the full per-turn state machine. -/
def onTurn (o : Oracles) (now : Int) (inp : TurnInput) (st : ConvState) :
    TurnAction × ConvState :=
  if helpKeywords.contains (pyStrip (pyLower inp.userText)) then
    (.showHelp, clearRefinementState st)
  else
    match (match inp.card with
           | some cd =>
             if cd.action = some "exit_refinement" then
               some (TurnAction.exitRefinementMsg, clearRefinementState st)
             else if cd.action = some "start_new" then
               some (TurnAction.showHelp, clearRefinementState st)
             else none
           | none => none) with
    | some r => r
    | none =>
      let attachmentTexts := attachmentTextsOf inp.attachments
      let combined := combinedInputOf inp.userText attachmentTexts
      let refRes := getRefinementState now st
      match refRes.1 with
      | some entry =>
        if inp.userText ≠ "" ∧ inp.card = none then
          match checkExplicitTrigger inp.userText with
          | some rid =>
            routeTurn o now inp true (some rid) inp.userText attachmentTexts combined
              (clearRefinementState refRes.2)
          | none =>
            let refinedOut := refineOutput o entry.output inp.userText entry.roleId
            (.refined refinedOut, setRefinementState now refinedOut entry.roleId refRes.2)
        else
          let rr := resolveRole o inp.userText inp.card
          routeTurn o now inp true rr.1 rr.2 attachmentTexts combined refRes.2
      | none =>
        let rr := resolveRole o inp.userText inp.card
        routeTurn o now inp false rr.1 rr.2 attachmentTexts combined refRes.2

/-- Concrete oracle bundle for evaluating turns: the classifier raises, the
refinement call returns `"refined-output"`, role calls return `"llm-output"`. -/
def stubOracles : Oracles where
  classify := fun _ => none
  refineLLM := fun _ _ _ => .ok "refined-output"
  roleLLM := fun _ _ => .ok "llm-output"

/-- Oracle bundle whose refinement call raises with message `boom`. -/
def errRefineOracles : Oracles where
  classify := fun _ => none
  refineLLM := fun _ _ _ => .error "boom"
  roleLLM := fun _ _ => .ok "llm-output"

/-- A plain lowercase word: non-empty, no whitespace, fixed by `lower()`.
Inputs built from such words pass through the router's
`lower().strip().split()` normalization unchanged. -/
def lcWord (w : String) : Bool :=
  !w.data.isEmpty && w.data.all (fun c => !isPyWs c && (Char.toLower c == c))

/-! ## Examples and library lemmas -/

example : checkExplicitTrigger "reformat this instead" = some "reformat" := by decide
example : checkExplicitTrigger "make it shorter" = none := by decide
example : checkExplicitTrigger "/spec hello" = some "spec" := by decide
example : checkExplicitTrigger "!cv hello" = some "spec" := by decide

example : resolveRole stubOracles "/spec please review" none = (some "spec", "please review") := by
  decide

example : resolveRole stubOracles "spec please review" none = (some "spec", "please review") := by
  decide

example : resolveRole stubOracles "please spec this" none = (some "spec", "please spec this") := by
  decide

example : resolveRole stubOracles "" none = (none, "") := by decide

example :
    resolveRole stubOracles "" (some ⟨some "select_role", some "profile"⟩) =
      (some "profile", "") := by decide

example :
    onTurn stubOracles 10 ⟨"help", [], none⟩ ⟨some ⟨"spec", 0⟩, some ⟨"out", "profile", 0⟩⟩ =
      (.showHelp, ⟨some ⟨"spec", 0⟩, none⟩) := by decide

example :
    onTurn stubOracles 10 ⟨"spec John's CV text", [], none⟩ ⟨none, none⟩ =
      (.roleReply "spec" "llm-output",
        ⟨none, some ⟨"llm-output", "spec", 10⟩⟩) := by decide

example : pyStrip "  hi there \n" = "hi there" := by decide
example : pyLower "Hi!" = "hi!" := by decide
example : pyWords " spec  please review " = ["spec", "please", "review"] := by decide
example : strJoin ["please", "review"] = "please review" := by decide
example : containsSubS "please spec this" "spec" = true := by decide
example : containsSubS "hey" "spec" = false := by decide
example : startsWithS "/spec x" "/" = true := by decide
example : endsWithS "abc```" "```" = true := by decide

example :
    parseCvJson "\x7b\"name\":\"Jo\"\x7d" = .ok (.obj (.cons "name" (.str "Jo") .nil)) := rfl

example :
    parseCvJson "```json\n\x7b\"name\":\"Jo\",\"education\":[]\x7d\n```" =
      .ok (.obj (.cons "name" (.str "Jo") (.cons "education" (.arr .nil) .nil))) := rfl

example : parseCvJson "no json here" = .error "Could not parse CV data as JSON" := rfl

example : parseCvJson "noise \x7b\"a\":[\"b\"]\x7d trailing" =
    .ok (.obj (.cons "a" (.arr (.cons (.str "b") .nil)) .nil)) := rfl

/-! ## Library lemmas: Python strip and JSON round trip -/

theorem pyStripL_cons_of_not_ws {c : Char} (h : isPyWs c = false) (l : List Char) :
    pyStripLChars (c :: l) = c :: l := by
  simp [pyStripLChars, h]

theorem pyStripR_append_ws {c : Char} (h : isPyWs c = true) (l : List Char) :
    pyStripRChars (l ++ [c]) = pyStripRChars l := by
  induction l with
  | nil => simp [pyStripRChars, h]
  | cons d t ih => simp only [List.cons_append, pyStripRChars, List.append_eq, ih]

theorem pyStripR_append_not_ws {c : Char} (h : isPyWs c = false) (l : List Char) :
    pyStripRChars (l ++ [c]) = l ++ [c] := by
  induction l with
  | nil => simp [pyStripRChars, h]
  | cons d t ih =>
    simp only [List.cons_append, pyStripRChars, List.append_eq, ih]
    cases ht : t ++ [c] with
    | nil => simp at ht
    | cons x xs => simp only []

theorem skipWs_cons_of_not_ws {c : Char} (h : isJsonWs c = false) (l : List Char) :
    skipWs (c :: l) = c :: l := by
  simp [skipWs, h]

/-- Every rendered JSON value has the shape `open :: (mid ++ [close])` with
non-whitespace, non-backtick delimiters. -/
theorem renderJ_shape (j : Json) :
    ∃ c mid d, renderJ j = c :: (mid ++ [d]) ∧
      isPyWs c = false ∧ isPyWs d = false ∧ isJsonWs c = false ∧
      (c = '"' ∨ c = '[' ∨ c = '{') ∧ c ≠ '`' ∧ d ≠ '`' := by
  cases j with
  | str s => exact ⟨'"', s.data, '"', by simp [renderJ], by decide, by decide, by decide,
      by decide, by decide, by decide⟩
  | arr l => exact ⟨'[', renderL l, ']', by simp [renderJ], by decide, by decide, by decide,
      by decide, by decide, by decide⟩
  | obj f => exact ⟨'{', renderO f, '}', by simp [renderJ], by decide, by decide, by decide,
      by decide, by decide, by decide⟩

theorem pyStripChars_renderJ (j : Json) : pyStripChars (renderJ j) = renderJ j := by
  obtain ⟨c, mid, d, hshape, hc, hd, _, _, _, _⟩ := renderJ_shape j
  rw [hshape, pyStripChars, pyStripL_cons_of_not_ws hc]
  have : c :: (mid ++ [d]) = (c :: mid) ++ [d] := by simp
  rw [this, pyStripR_append_not_ws hd]

theorem parseStrBody_append {s : List Char} (h : ∀ c ∈ s, c ≠ '"') (r : List Char) :
    parseStrBody (s ++ '"' :: r) = some (s, r) := by
  induction s with
  | nil => simp [parseStrBody]
  | cons c t ih =>
    have hc : c ≠ '"' := h c (by simp)
    have ih' := ih (fun x hx => h x (List.mem_cons_of_mem _ hx))
    simp only [List.cons_append, parseStrBody, if_neg hc, List.append_eq, ih']

theorem cleanStr_no_quote {s : String} (h : cleanStr s = true) : ∀ c ∈ s.data, c ≠ '"' := by
  intro c hc
  have := (List.all_eq_true.mp h) c hc
  simp only [Bool.and_eq_true, decide_eq_true_eq] at this
  exact this.1.1

mutual

theorem parse_renderJ : ∀ (j : Json) (fuel : Nat) (rest : List Char),
    jsize j ≤ fuel → cleanJ j = true →
    parseValue fuel (renderJ j ++ rest) = some (j, rest)
  | .str s, fuel, rest, hfuel, hclean => by
    cases fuel with
    | zero => simp only [jsize] at hfuel; omega
    | succ f =>
      have hq : ∀ c ∈ s.data, c ≠ '"' := cleanStr_no_quote (by simpa [cleanJ] using hclean)
      have harr : renderJ (.str s) ++ rest = '"' :: (s.data ++ '"' :: rest) := by
        rw [renderJ]; simp
      rw [harr, parseValue, skipWs_cons_of_not_ws (by decide)]
      simp only [if_true]
      rw [parseStrBody_append hq]
  | .arr .nil, fuel, rest, hfuel, hclean => by
    cases fuel with
    | zero => simp only [jsize, jsizeL] at hfuel; omega
    | succ f =>
      have harr : renderJ (.arr .nil) ++ rest = '[' :: (']' :: rest) := by
        rw [renderJ, renderL]; simp
      rw [harr, parseValue, skipWs_cons_of_not_ws (by decide)]
      simp only [if_true]
      rw [skipWs_cons_of_not_ws (by decide)]
      simp only [if_true]
      rw [if_neg (by decide)]
  | .arr (.cons j' t), fuel, rest, hfuel, hclean => by
    cases fuel with
    | zero => simp only [jsize, jsizeL] at hfuel; omega
    | succ f =>
      have harr : renderJ (.arr (.cons j' t)) ++ rest =
          '[' :: (renderL (.cons j' t) ++ ']' :: rest) := by
        rw [renderJ]; simp
      rw [harr, parseValue, skipWs_cons_of_not_ws (by decide)]
      simp only [if_true]
      rw [if_neg (by decide)]
      obtain ⟨c, mid, d, hshape, _, _, hcj, hcd, _, _⟩ := renderJ_shape j'
      have hcne : c ≠ ']' := by rcases hcd with rfl | rfl | rfl <;> decide
      have hw : ∃ w, renderL (.cons j' t) = renderJ j' ++ w := by
        cases t with
        | nil => exact ⟨[], by rw [renderL]; simp⟩
        | cons a b => exact ⟨',' :: renderL (.cons a b), by rw [renderL]⟩
      obtain ⟨w, hw⟩ := hw
      have hu : renderL (.cons j' t) ++ ']' :: rest = c :: (mid ++ [d] ++ (w ++ ']' :: rest)) := by
        rw [hw, hshape]; simp
      have hrec := parse_renderL (.cons j' t) (by simp) f rest
        (by simp only [jsize, jsizeL] at hfuel ⊢; omega) (by simpa [cleanJ] using hclean)
      rw [hu] at hrec
      rw [hu, skipWs_cons_of_not_ws hcj]
      simp only []
      rw [if_neg hcne, hrec]
  | .obj .nil, fuel, rest, hfuel, hclean => by
    cases fuel with
    | zero => simp only [jsize, jsizeO] at hfuel; omega
    | succ f =>
      have harr : renderJ (.obj .nil) ++ rest = '{' :: ('}' :: rest) := by
        rw [renderJ, renderO]; simp
      rw [harr, parseValue, skipWs_cons_of_not_ws (by decide)]
      simp only [if_true]
      rw [if_neg (by decide), if_neg (by decide), skipWs_cons_of_not_ws (by decide)]
      simp only [if_true]
  | .obj (.cons k v t), fuel, rest, hfuel, hclean => by
    cases fuel with
    | zero => simp only [jsize, jsizeO] at hfuel; omega
    | succ f =>
      have harr : renderJ (.obj (.cons k v t)) ++ rest =
          '{' :: (renderO (.cons k v t) ++ '}' :: rest) := by
        rw [renderJ]; simp
      rw [harr, parseValue, skipWs_cons_of_not_ws (by decide)]
      simp only [if_true]
      have hw : ∃ w, renderO (.cons k v t) = '"' :: (k.data ++ '"' :: ':' :: renderJ v ++ w) := by
        cases t with
        | nil => exact ⟨[], by rw [renderO]; simp⟩
        | cons k' v' b =>
          exact ⟨',' :: renderO (.cons k' v' b), by rw [renderO]; simp⟩
      obtain ⟨w, hw⟩ := hw
      have hu : renderO (.cons k v t) ++ '}' :: rest =
          '"' :: (k.data ++ '"' :: ':' :: renderJ v ++ w ++ '}' :: rest) := by
        rw [hw]; simp
      have hrec := parse_renderO (.cons k v t) (by simp) f rest
        (by simp only [jsize, jsizeO] at hfuel ⊢; omega) (by simpa [cleanJ] using hclean)
      rw [hu] at hrec
      rw [hu, skipWs_cons_of_not_ws (by decide)]
      simp only []
      rw [if_neg (show ¬(('{' : Char) = '[') from by decide),
        if_neg (show ¬(('"' : Char) = '}') from by decide), hrec]
      rfl

theorem parse_renderL : ∀ (l : JList), l ≠ .nil → ∀ (fuel : Nat) (rest : List Char),
    jsizeL l ≤ fuel → cleanL l = true →
    parseItems fuel (renderL l ++ ']' :: rest) = some (l, rest)
  | .nil, hne, _, _, _, _ => absurd rfl hne
  | .cons j .nil, _, fuel, rest, hfuel, hclean => by
    cases fuel with
    | zero => simp only [jsizeL] at hfuel; omega
    | succ f =>
      have hcj : cleanJ j = true := by
        simp only [cleanL, Bool.and_eq_true] at hclean; exact hclean.1
      rw [renderL, parseItems,
        parse_renderJ j f (']' :: rest) (by simp only [jsizeL, jsize] at hfuel ⊢; omega) hcj]
      simp only []
      rw [skipWs_cons_of_not_ws (by decide)]
      simp only [if_true]
      rw [if_neg (show ¬((']' : Char) = ',') from by decide)]
  | .cons j (.cons j' t'), _, fuel, rest, hfuel, hclean => by
    cases fuel with
    | zero => simp only [jsizeL] at hfuel; omega
    | succ f =>
      have hcj : cleanJ j = true := by
        simp only [cleanL, Bool.and_eq_true] at hclean; exact hclean.1
      have hct : cleanL (.cons j' t') = true := by
        simp only [cleanL, Bool.and_eq_true] at hclean
        simp only [cleanL, Bool.and_eq_true]
        exact hclean.2
      have harr : renderL (.cons j (.cons j' t')) ++ ']' :: rest =
          renderJ j ++ (',' :: (renderL (.cons j' t') ++ ']' :: rest)) := by
        rw [renderL]; simp
      rw [harr, parseItems,
        parse_renderJ j f _ (by simp only [jsizeL, jsize] at hfuel ⊢; omega) hcj]
      simp only []
      rw [skipWs_cons_of_not_ws (by decide)]
      simp only [if_true]
      rw [parse_renderL (.cons j' t') (by simp) f rest
        (by simp only [jsizeL] at hfuel ⊢; omega) hct]

theorem parse_renderO : ∀ (fs : JObj), fs ≠ .nil → ∀ (fuel : Nat) (rest : List Char),
    jsizeO fs ≤ fuel → cleanO fs = true →
    parseFields fuel (renderO fs ++ '}' :: rest) = some (fs, rest)
  | .nil, hne, _, _, _, _ => absurd rfl hne
  | .cons k v .nil, _, fuel, rest, hfuel, hclean => by
    cases fuel with
    | zero => simp only [jsizeO] at hfuel; omega
    | succ f =>
      have hck : cleanStr k = true := by
        simp only [cleanO, Bool.and_eq_true] at hclean; exact hclean.1.1
      have hcv : cleanJ v = true := by
        simp only [cleanO, Bool.and_eq_true] at hclean; exact hclean.1.2
      have harr : renderO (.cons k v .nil) ++ '}' :: rest =
          '"' :: (k.data ++ '"' :: (':' :: (renderJ v ++ '}' :: rest))) := by
        rw [renderO]; simp
      rw [harr, parseFields, skipWs_cons_of_not_ws (by decide)]
      simp only [if_true]
      rw [parseStrBody_append (cleanStr_no_quote hck)]
      simp only []
      rw [skipWs_cons_of_not_ws (by decide)]
      simp only [if_true]
      rw [parse_renderJ v f _ (by simp only [jsizeO, jsize] at hfuel ⊢; omega) hcv]
      simp only []
      rw [skipWs_cons_of_not_ws (by decide)]
      simp only [if_true]
      rw [if_neg (show ¬(('}' : Char) = ',') from by decide)]
  | .cons k v (.cons k' v' t'), _, fuel, rest, hfuel, hclean => by
    cases fuel with
    | zero => simp only [jsizeO] at hfuel; omega
    | succ f =>
      have hck : cleanStr k = true := by
        simp only [cleanO, Bool.and_eq_true] at hclean; exact hclean.1.1
      have hcv : cleanJ v = true := by
        simp only [cleanO, Bool.and_eq_true] at hclean; exact hclean.1.2
      have hct : cleanO (.cons k' v' t') = true := by
        simp only [cleanO, Bool.and_eq_true] at hclean
        simp only [cleanO, Bool.and_eq_true]
        exact hclean.2
      have harr : renderO (.cons k v (.cons k' v' t')) ++ '}' :: rest =
          '"' :: (k.data ++ '"' :: (':' ::
            (renderJ v ++ ',' :: (renderO (.cons k' v' t') ++ '}' :: rest)))) := by
        rw [renderO]; simp
      rw [harr, parseFields, skipWs_cons_of_not_ws (by decide)]
      simp only [if_true]
      rw [parseStrBody_append (cleanStr_no_quote hck)]
      simp only []
      rw [skipWs_cons_of_not_ws (by decide)]
      simp only [if_true]
      rw [parse_renderJ v f _ (by simp only [jsizeO, jsize] at hfuel ⊢; omega) hcv]
      simp only []
      rw [skipWs_cons_of_not_ws (by decide)]
      simp only [if_true]
      rw [parse_renderO (.cons k' v' t') (by simp) f rest
        (by simp only [jsizeO] at hfuel ⊢; omega) hct]

end

theorem skipWs_nil : skipWs [] = [] := rfl

mutual

theorem jsize_le_renderLen : ∀ (j : Json), jsize j ≤ (renderJ j).length
  | .str s => by simp [jsize, renderJ]
  | .arr l => by
    have := jsizeL_le_renderLenL l
    simp only [jsize, renderJ, List.length_cons, List.length_append, List.length_singleton]
    omega
  | .obj f => by
    have := jsizeO_le_renderLenO f
    simp only [jsize, renderJ, List.length_cons, List.length_append, List.length_singleton]
    omega

theorem jsizeL_le_renderLenL : ∀ (l : JList), jsizeL l ≤ (renderL l).length + 1
  | .nil => by simp [jsizeL]
  | .cons j .nil => by
    have := jsize_le_renderLen j
    simp only [jsizeL, jsizeL.eq_1, renderL]
    omega
  | .cons j (.cons j' t) => by
    have h1 := jsize_le_renderLen j
    have h2 := jsizeL_le_renderLenL (.cons j' t)
    simp only [jsizeL] at h2
    simp only [jsizeL, renderL, List.length_append, List.length_cons]
    omega

theorem jsizeO_le_renderLenO : ∀ (f : JObj), jsizeO f ≤ (renderO f).length + 1
  | .nil => by simp [jsizeO]
  | .cons k v .nil => by
    have := jsize_le_renderLen v
    simp only [jsizeO, jsizeO.eq_1, renderO, List.length_cons, List.length_append]
    omega
  | .cons k v (.cons k' v' t) => by
    have h1 := jsize_le_renderLen v
    have h2 := jsizeO_le_renderLenO (.cons k' v' t)
    simp only [jsizeO] at h2
    simp only [jsizeO, renderO, List.length_append, List.length_cons]
    omega

end

/-- `json.loads` recovers any clean JSON value from its rendering. -/
theorem jsonLoads_renderJ (j : Json) (hclean : cleanJ j = true) :
    jsonLoads (renderJ j) = some j := by
  have hsz : jsize j ≤ (renderJ j).length + 1 := le_trans (jsize_le_renderLen j) (by omega)
  have h := parse_renderJ j ((renderJ j).length + 1) [] hsz hclean
  rw [List.append_nil] at h
  rw [jsonLoads, h]
  simp [skipWs]

theorem renderJ_obj_reverse (f : JObj) :
    (renderJ (.obj f)).reverse = '}' :: ((renderO f).reverse ++ ['{']) := by
  rw [renderJ]; simp

/-- `parse_cv_json` applied to a bare rendered object. -/
theorem parseCvJson_render_obj (f : JObj) (hclean : cleanJ (.obj f) = true) :
    parseCvJson (renderS (.obj f)) = .ok (.obj f) := by
  have hstrip : pyStrip (renderS (.obj f)) = String.mk (renderJ (.obj f)) := by
    show String.mk (pyStripChars (renderJ (.obj f))) = _
    rw [pyStripChars_renderJ]
  have h1 : startsWithS (String.mk (renderJ (.obj f))) "```json" = false := by
    rw [startsWithS, renderJ]; rfl
  have h2 : startsWithS (String.mk (renderJ (.obj f))) "```" = false := by
    rw [startsWithS, renderJ]; rfl
  have h3 : endsWithS (String.mk (renderJ (.obj f))) "```" = false := by
    rw [endsWithS]
    show List.isPrefixOf _ (renderJ (.obj f)).reverse = false
    rw [renderJ_obj_reverse]; rfl
  rw [parseCvJson, hstrip, h1, h2]
  simp only [Bool.false_eq_true, if_false, h3]
  rw [hstrip.symm.trans hstrip]  -- no-op to keep the strip step explicit
  show (match jsonLoads (pyStrip (String.mk (renderJ (.obj f)))).data with
    | some j => Except.ok j
    | none =>
      match (pyStrip (String.mk (renderJ (.obj f)))).data.findIdx? (· = '{'),
          (pyStrip (String.mk (renderJ (.obj f)))).data.reverse.findIdx? (· = '}') with
      | some s, some rIdx =>
        match jsonLoads ((((pyStrip (String.mk (renderJ (.obj f)))).data.drop s)).take
            ((pyStrip (String.mk (renderJ (.obj f)))).data.length - 1 - rIdx + 1 - s)) with
        | some j => Except.ok j
        | none => Except.error "Could not parse CV data as JSON"
      | _, _ => Except.error "Could not parse CV data as JSON") = Except.ok (Json.obj f)
  have hstrip2 : pyStrip (String.mk (renderJ (.obj f))) = String.mk (renderJ (.obj f)) := by
    show String.mk (pyStripChars (renderJ (.obj f))) = _
    rw [pyStripChars_renderJ]
  rw [hstrip2]
  show (match jsonLoads (renderJ (.obj f)) with
    | some j => Except.ok j
    | none => _) = Except.ok (Json.obj f)
  rw [jsonLoads_renderJ _ hclean]

theorem pyStripChars_nl_render_nl (j : Json) :
    pyStripChars ('\n' :: (renderJ j ++ ['\n'])) = renderJ j := by
  obtain ⟨c, mid, d, hshape, hc, hd, _, _, _, _⟩ := renderJ_shape j
  rw [pyStripChars]
  rw [show pyStripLChars ('\n' :: (renderJ j ++ ['\n'])) =
      pyStripLChars (renderJ j ++ ['\n']) from by simp [pyStripLChars, isPyWs]]
  rw [hshape]
  rw [show (c :: (mid ++ [d])) ++ ['\n'] = c :: ((mid ++ [d]) ++ ['\n']) from by simp]
  rw [pyStripL_cons_of_not_ws hc]
  rw [show c :: ((mid ++ [d]) ++ ['\n']) = (c :: (mid ++ [d])) ++ ['\n'] from by simp]
  rw [pyStripR_append_ws (by decide)]
  rw [show c :: (mid ++ [d]) = (c :: mid) ++ [d] from by simp]
  rw [pyStripR_append_not_ws hd]

/-- After the leading fence is dropped, the text still ends with a fence. -/
theorem endsWith_fence_tail (f : JObj) :
    endsWithS (String.mk ('\n' :: (renderJ (.obj f) ++ ['\n', '`', '`', '`']))) "```" = true := by
  rw [endsWithS]
  show List.isPrefixOf _ ('\n' :: (renderJ (.obj f) ++ ['\n', '`', '`', '`'])).reverse = true
  rw [show ('\n' :: (renderJ (.obj f) ++ ['\n', '`', '`', '`'])).reverse =
      '`' :: '`' :: '`' :: '\n' :: ((renderJ (.obj f)).reverse ++ ['\n']) from by simp]
  rfl

/-- Dropping the trailing fence and stripping recovers the rendered object. -/
theorem dropFence_strip (f : JObj) :
    pyStrip (strDropLastN 3 (String.mk ('\n' :: (renderJ (.obj f) ++ ['\n', '`', '`', '`'])))) =
      String.mk (renderJ (.obj f)) := by
  have hsplit : '\n' :: (renderJ (.obj f) ++ ['\n', '`', '`', '`']) =
      ('\n' :: (renderJ (.obj f) ++ ['\n'])) ++ ['`', '`', '`'] := by simp
  have hlen : (('\n' :: (renderJ (.obj f) ++ ['\n'])) ++ ['`', '`', '`']).length - 3 =
      ('\n' :: (renderJ (.obj f) ++ ['\n'])).length := by simp
  have htake : strDropLastN 3 (String.mk ('\n' :: (renderJ (.obj f) ++ ['\n', '`', '`', '`']))) =
      String.mk ('\n' :: (renderJ (.obj f) ++ ['\n'])) := by
    rw [strDropLastN]
    show String.mk ((('\n' :: (renderJ (.obj f) ++ ['\n', '`', '`', '`']))).take
      (('\n' :: (renderJ (.obj f) ++ ['\n', '`', '`', '`'])).length - 3)) = _
    rw [hsplit, hlen, List.take_left]
  rw [htake]
  show String.mk (pyStripChars ('\n' :: (renderJ (.obj f) ++ ['\n']))) = _
  rw [pyStripChars_nl_render_nl]

/-- `parse_cv_json` applied to a rendered object wrapped in a ```json fence. -/
theorem parseCvJson_fenced_json (f : JObj) (hclean : cleanJ (.obj f) = true) :
    parseCvJson ("```json\n" ++ renderS (.obj f) ++ "\n```") = .ok (.obj f) := by
  have hdata : ("```json\n" ++ renderS (.obj f) ++ "\n```").data =
      '`' :: '`' :: '`' :: 'j' :: 's' :: 'o' :: 'n' :: '\n' ::
        (renderJ (.obj f) ++ ['\n', '`', '`', '`']) := by
    rw [String.data_append, String.data_append]
    show (['`', '`', '`', 'j', 's', 'o', 'n', '\n'] ++ renderJ (.obj f)) ++
        ['\n', '`', '`', '`'] = _
    simp
  have hstrip : pyStrip ("```json\n" ++ renderS (.obj f) ++ "\n```") =
      String.mk ('`' :: '`' :: '`' :: 'j' :: 's' :: 'o' :: 'n' :: '\n' ::
        (renderJ (.obj f) ++ ['\n', '`', '`', '`'])) := by
    show String.mk (pyStripChars _) = _
    rw [hdata]
    rw [pyStripChars, pyStripL_cons_of_not_ws (by decide)]
    rw [show '`' :: '`' :: '`' :: 'j' :: 's' :: 'o' :: 'n' :: '\n' ::
        (renderJ (.obj f) ++ ['\n', '`', '`', '`']) =
        ('`' :: '`' :: '`' :: 'j' :: 's' :: 'o' :: 'n' :: '\n' ::
          (renderJ (.obj f) ++ ['\n', '`', '`'])) ++ ['`'] from by simp]
    rw [pyStripR_append_not_ws (by decide)]
  have hpre : startsWithS (String.mk ('`' :: '`' :: '`' :: 'j' :: 's' :: 'o' :: 'n' :: '\n' ::
      (renderJ (.obj f) ++ ['\n', '`', '`', '`']))) "```json" = true := rfl
  have hdrop : strDropN 7 (String.mk ('`' :: '`' :: '`' :: 'j' :: 's' :: 'o' :: 'n' :: '\n' ::
      (renderJ (.obj f) ++ ['\n', '`', '`', '`']))) =
      String.mk ('\n' :: (renderJ (.obj f) ++ ['\n', '`', '`', '`'])) := rfl
  rw [parseCvJson, hstrip, hpre]
  simp only [if_true]
  rw [hdrop, endsWith_fence_tail]
  simp only [if_true]
  rw [dropFence_strip]
  show (match jsonLoads (renderJ (.obj f)) with
    | some j => Except.ok j
    | none => _) = Except.ok (Json.obj f)
  rw [jsonLoads_renderJ _ hclean]

/-- `parse_cv_json` applied to a rendered object wrapped in a bare ``` fence. -/
theorem parseCvJson_fenced_plain (f : JObj) (hclean : cleanJ (.obj f) = true) :
    parseCvJson ("```\n" ++ renderS (.obj f) ++ "\n```") = .ok (.obj f) := by
  have hdata : ("```\n" ++ renderS (.obj f) ++ "\n```").data =
      '`' :: '`' :: '`' :: '\n' :: (renderJ (.obj f) ++ ['\n', '`', '`', '`']) := by
    rw [String.data_append, String.data_append]
    show (['`', '`', '`', '\n'] ++ renderJ (.obj f)) ++ ['\n', '`', '`', '`'] = _
    simp
  have hstrip : pyStrip ("```\n" ++ renderS (.obj f) ++ "\n```") =
      String.mk ('`' :: '`' :: '`' :: '\n' ::
        (renderJ (.obj f) ++ ['\n', '`', '`', '`'])) := by
    show String.mk (pyStripChars _) = _
    rw [hdata]
    rw [pyStripChars, pyStripL_cons_of_not_ws (by decide)]
    rw [show '`' :: '`' :: '`' :: '\n' :: (renderJ (.obj f) ++ ['\n', '`', '`', '`']) =
        ('`' :: '`' :: '`' :: '\n' :: (renderJ (.obj f) ++ ['\n', '`', '`'])) ++ ['`'] from by
          simp]
    rw [pyStripR_append_not_ws (by decide)]
  have hpre : startsWithS (String.mk ('`' :: '`' :: '`' :: '\n' ::
      (renderJ (.obj f) ++ ['\n', '`', '`', '`']))) "```json" = false := rfl
  have hpre3 : startsWithS (String.mk ('`' :: '`' :: '`' :: '\n' ::
      (renderJ (.obj f) ++ ['\n', '`', '`', '`']))) "```" = true := rfl
  have hdrop : strDropN 3 (String.mk ('`' :: '`' :: '`' :: '\n' ::
      (renderJ (.obj f) ++ ['\n', '`', '`', '`']))) =
      String.mk ('\n' :: (renderJ (.obj f) ++ ['\n', '`', '`', '`'])) := rfl
  rw [parseCvJson, hstrip, hpre]
  simp only [Bool.false_eq_true, if_false]
  rw [hpre3]
  simp only [if_true]
  rw [hdrop, endsWith_fence_tail]
  simp only [if_true]
  rw [dropFence_strip]
  show (match jsonLoads (renderJ (.obj f)) with
    | some j => Except.ok j
    | none => _) = Except.ok (Json.obj f)
  rw [jsonLoads_renderJ _ hclean]


/-! ## Document membership lemmas -/

theorem mem_sepBlank {d : DocElem} :
    ∀ {blocks : List (List DocElem)}, d ∈ sepBlank blocks →
      d = .blank ∨ ∃ b ∈ blocks, d ∈ b := by
  intro blocks
  induction blocks with
  | nil => intro h; simp [sepBlank] at h
  | cons b bs ih =>
    intro h
    cases bs with
    | nil =>
      simp only [sepBlank] at h
      exact Or.inr ⟨b, by simp, h⟩
    | cons b' bs' =>
      simp only [sepBlank, List.mem_append, List.mem_cons] at h
      rcases h with h | h | h
      · exact Or.inr ⟨b, by simp, h⟩
      · exact Or.inl h
      · rcases ih h with h' | ⟨c, hc, hd⟩
        · exact Or.inl h'
        · exact Or.inr ⟨c, by simp [hc], hd⟩

mutual

theorem nestedBullets_shape : ∀ (b : BItem) (lvl : Nat) (d : DocElem),
    d ∈ nestedBullets b lvl → ∃ l t, d = .bulletPoint l t
  | .s text, lvl, d, h => by
    simp only [nestedBullets, List.mem_singleton] at h
    exact ⟨lvl, text, h⟩
  | .node text subs, lvl, d, h => by
    simp only [nestedBullets, List.mem_append] at h
    rcases h with h | h
    · by_cases ht : text ≠ ""
      · rw [if_pos ht] at h
        simp only [List.mem_singleton] at h
        exact ⟨lvl, text, h⟩
      · rw [if_neg ht] at h
        simp at h
    · exact nestedBulletsL_shape subs (lvl + 1) d h

theorem nestedBulletsL_shape : ∀ (bs : BItems) (lvl : Nat) (d : DocElem),
    d ∈ nestedBulletsL bs lvl → ∃ l t, d = .bulletPoint l t
  | .nil, _, d, h => by simp [nestedBulletsL] at h
  | .cons b t, lvl, d, h => by
    simp only [nestedBulletsL, List.mem_append] at h
    rcases h with h | h
    · exact nestedBullets_shape b lvl d h
    · exact nestedBulletsL_shape t lvl d h

end

theorem sectionHeader_not_mem_workEntry (s : String) (job : WorkExp) :
    DocElem.sectionHeader s ∉ workEntry job := by
  intro h
  simp only [workEntry, List.mem_append] at h
  rcases h with (h | h) | h
  · simp at h
  · by_cases hp : job.position ≠ ""
    · rw [if_pos hp] at h; simp at h
    · rw [if_neg hp] at h; simp at h
  · by_cases hs : job.sections.isEmpty
    · rw [if_pos hs] at h
      simp only [List.mem_flatMap] at h
      obtain ⟨b, _, hb⟩ := h
      obtain ⟨l, t, ht⟩ := nestedBullets_shape b 0 _ hb
      simp at ht
    · rw [if_neg hs] at h
      simp only [List.mem_flatMap, List.mem_append] at h
      obtain ⟨sec, _, hb | hb⟩ := h
      · by_cases hh : sec.header ≠ ""
        · rw [if_pos hh] at hb; simp at hb
        · rw [if_neg hh] at hb; simp at hb
      · obtain ⟨item, _, hi⟩ := hb
        obtain ⟨l, t, ht⟩ := nestedBullets_shape item 0 _ hi
        simp at ht

theorem sectionHeader_not_mem_otherEntryBlock (s : String) (item : OtherInfo) :
    DocElem.sectionHeader s ∉ otherEntryBlock item := by
  intro h
  simp only [otherEntryBlock] at h
  by_cases he : !item.entries.isEmpty
  · rw [if_pos he] at h
    simp only [List.mem_append, List.mem_singleton, List.mem_cons] at h
    rcases h with ((h | h) | h) | h
    · simp at h
    · simp at h
    · simp only [List.mem_flatMap, List.mem_append] at h
      obtain ⟨entry, _, (hb | hb) | hb⟩ := h
      · by_cases ho : entry.organization ≠ "" ∨ entry.dates ≠ ""
        · rw [if_pos ho] at hb; simp at hb
        · rw [if_neg ho] at hb; simp at hb
      · by_cases hr : entry.role ≠ ""
        · rw [if_pos hr] at hb; simp at hb
        · rw [if_neg hr] at hb; simp at hb
      · obtain ⟨b, _, hi⟩ := hb
        obtain ⟨l, t, ht⟩ := nestedBullets_shape b 0 _ hi
        simp at ht
    · simp at h
  · rw [if_neg he] at h
    by_cases hc : !item.content.isEmpty
    · rw [if_pos hc] at h
      simp only [List.mem_append] at h
      rcases h with h | h
      · by_cases hcat : item.category ≠ ""
        · rw [if_pos hcat] at h; simp at h
        · rw [if_neg hcat] at h; simp at h
      · simp only [List.mem_map] at h
        obtain ⟨x, _, hx⟩ := h
        simp at hx
    · rw [if_neg hc] at h
      simp at h

theorem eduHeader_not_mem_logoSegment (b : Bool) :
    DocElem.sectionHeader "EDUCATION" ∉ logoSegment b := by
  cases b <;> simp [logoSegment]

theorem eduHeader_not_mem_personalSegment (cv : CVData) :
    DocElem.sectionHeader "EDUCATION" ∉ personalSegment cv := by
  intro h
  simp only [personalSegment, List.mem_append, List.mem_cons, List.mem_singleton] at h
  rcases h with (((h | h) | h) | h) | h
  · rcases h with h | h | h
    · exact absurd (DocElem.sectionHeader.inj h) (by decide)
    · simp at h
    · simp at h
  · by_cases hx : cv.location ≠ ""
    · rw [if_pos hx] at h; simp at h
    · rw [if_neg hx] at h; simp at h
  · by_cases hx : cv.right_to_work ≠ ""
    · rw [if_pos hx] at h; simp at h
    · rw [if_neg hx] at h; simp at h
  · by_cases hx : cv.notice ≠ ""
    · rw [if_pos hx] at h; simp at h
    · rw [if_neg hx] at h; simp at h
  · by_cases hx : cv.salary_expectations ≠ ""
    · rw [if_pos hx] at h; simp at h
    · rw [if_neg hx] at h; simp at h

theorem eduHeader_not_mem_itSegment (cv : CVData) :
    DocElem.sectionHeader "EDUCATION" ∉ itSegment cv := by
  simp [itSegment]

theorem eduHeader_not_mem_profileSegment (cv : CVData) :
    DocElem.sectionHeader "EDUCATION" ∉ profileSegment cv := by
  intro h
  simp only [profileSegment] at h
  by_cases hp : cv.profile ≠ ""
  · rw [if_pos hp] at h
    simp only [List.mem_append, List.mem_cons, List.mem_singleton, List.mem_map] at h
    rcases h with (h | h | h) | ⟨x, _, hx⟩
    · simp at h
    · exact absurd (DocElem.sectionHeader.inj h) (by decide)
    · simp at h
    · simp at hx
  · rw [if_neg hp] at h; simp at h

theorem eduHeader_not_mem_workSegment (cv : CVData) :
    DocElem.sectionHeader "EDUCATION" ∉ workSegment cv := by
  intro h
  simp only [workSegment] at h
  by_cases hw : !cv.work_experience.isEmpty
  · rw [if_pos hw] at h
    simp only [List.mem_append, List.mem_cons, List.mem_singleton] at h
    rcases h with h | h
    · rcases h with h | h | h | h
      · simp at h
      · simp at h
      · exact absurd (DocElem.sectionHeader.inj h) (by decide)
      · simp at h
    · rcases mem_sepBlank h with h' | ⟨b, hb, hd⟩
      · simp at h'
      · simp only [List.mem_map] at hb
        obtain ⟨job, _, rfl⟩ := hb
        exact sectionHeader_not_mem_workEntry "EDUCATION" job hd
  · rw [if_neg hw] at h; simp at h

theorem eduHeader_not_mem_otherSegment (cv : CVData) :
    DocElem.sectionHeader "EDUCATION" ∉ otherSegment cv := by
  intro h
  simp only [otherSegment] at h
  by_cases ho : !cv.other_information.isEmpty
  · rw [if_pos ho] at h
    simp only [List.mem_append, List.mem_cons, List.mem_singleton] at h
    rcases h with (h | h | h) | h
    · simp at h
    · exact absurd (DocElem.sectionHeader.inj h) (by decide)
    · simp at h
    · simp only [List.mem_flatMap] at h
      obtain ⟨item, _, hi⟩ := h
      exact sectionHeader_not_mem_otherEntryBlock "EDUCATION" item hi
  · rw [if_neg ho] at h; simp at h

/-! ## Claim theorems -/

/-- Claim C1 (amended): for every conversation state and inbound message
whose lowercased, stripped text is one of the six coded help keywords
("help", "/help", "menu", "start", "hi", "hello" — the source list omits
"hey"), the turn handler emits the help menu and clears the
refinement-context entry; the pending-role entry is left untouched (the help
branch calls `clear_refinement_state` only), so it is not absent on the next
get until its TTL expires or it is consumed. -/
theorem claim_c1 (o : Oracles) (now : Int) (inp : TurnInput) (st : ConvState)
    (h : helpKeywords.contains (pyStrip (pyLower inp.userText)) = true) :
    onTurn o now inp st = (.showHelp, { st with refinement := none }) := by
  rw [onTurn, if_pos h]
  rfl

/-- Witness for C1 at `" HELP "` with a pending role and a refinement entry
set: the reply is the help card, the refinement entry is cleared, and the
pending-role entry survives. -/
theorem claim_c1_witness :
    helpKeywords.contains (pyStrip (pyLower " HELP ")) = true ∧
    onTurn stubOracles 10 ⟨" HELP ", [], none⟩
        ⟨some ⟨"spec", 0⟩, some ⟨"out", "profile", 0⟩⟩ =
      (.showHelp, ⟨some ⟨"spec", 0⟩, none⟩) :=
  ⟨by decide,
   claim_c1 stubOracles 10 ⟨" HELP ", [], none⟩
     ⟨some ⟨"spec", 0⟩, some ⟨"out", "profile", 0⟩⟩ (by decide)⟩

/-- Counterexample to C1 as stated: after a `"help"` turn at time 10 for a
conversation whose pending-role entry was stored at time 0, the next
`get_pending_role` (at time 20, well within the 300-second TTL) still returns
the stored role — the pending-role intent is not absent on the next get. -/
theorem claim_c1_counterexample :
    (getPendingRole 20 ((onTurn stubOracles 10 ⟨"help", [], none⟩
        ⟨some ⟨"spec", 0⟩, some ⟨"out", "profile", 0⟩⟩).2)).1 = some "spec" := by
  decide

/-- Claim C7 (amended): a StructuredCV with an empty education list produces
no "EDUCATION" section header **provided** its professional-qualifications
list is also empty; the source renders the EDUCATION section whenever either
list is non-empty. -/
theorem claim_c7 (logoExists : Bool) (cv : CVData)
    (h1 : cv.education = []) (h2 : cv.professional_qualifications = []) :
    DocElem.sectionHeader "EDUCATION" ∉ createMerakiCv logoExists cv := by
  intro h
  simp only [createMerakiCv, List.mem_append] at h
  rcases h with (((((h | h) | h) | h) | h) | h) | h
  · exact eduHeader_not_mem_logoSegment logoExists h
  · exact eduHeader_not_mem_personalSegment cv h
  · exact eduHeader_not_mem_itSegment cv h
  · rw [eduSegment, h1, h2] at h
    simp at h
  · exact eduHeader_not_mem_profileSegment cv h
  · exact eduHeader_not_mem_workSegment cv h
  · exact eduHeader_not_mem_otherSegment cv h

/-- Witness for C7: a CV with empty education and no professional
qualifications renders no EDUCATION header. -/
theorem claim_c7_witness :
    (⟨"Jo", "", "", "", "", "", "", "", "p", [], [],
        [⟨"2020", "Acme", "Dev", [], [BItem.s "did things"]⟩], []⟩ : CVData).education = [] ∧
    DocElem.sectionHeader "EDUCATION" ∉
      createMerakiCv true ⟨"Jo", "", "", "", "", "", "", "", "p", [], [],
        [⟨"2020", "Acme", "Dev", [], [BItem.s "did things"]⟩], []⟩ :=
  ⟨rfl,
   claim_c7 true ⟨"Jo", "", "", "", "", "", "", "", "p", [], [],
     [⟨"2020", "Acme", "Dev", [], [BItem.s "did things"]⟩], []⟩ rfl rfl⟩

/-- Counterexample to C7 as stated: with `education = []` but one
professional qualification, the document does contain an "EDUCATION"
section header (`education or professional_qualifications` gates the
section in the source). -/
theorem claim_c7_counterexample :
    DocElem.sectionHeader "EDUCATION" ∈
      createMerakiCv false ⟨"Jo", "", "", "", "", "", "", "", "", ["CFA"], [], [], []⟩ := by
  decide

/-- Claim C8 (amended): when it_systems, languages and interests are absent
(empty strings), the rendered document does NOT leave them empty — the
layout engine substitutes the placeholder value "N/A" on each of the three
always-shown lines ("always show, even if empty" in the source).  The
no-placeholder rule of the extraction contract applies to the StructuredCV
data, not to these display lines. -/
theorem claim_c8 (logoExists : Bool) (cv : CVData)
    (h1 : cv.it_systems = "") (h2 : cv.languages = "") (h3 : cv.interests = "") :
    DocElem.boldLabelPara "IT/Systems: " "N/A" ∈ createMerakiCv logoExists cv ∧
    DocElem.boldLabelPara "Languages: " "N/A" ∈ createMerakiCv logoExists cv ∧
    DocElem.boldLabelPara "Interests: " "N/A" ∈ createMerakiCv logoExists cv := by
  refine ⟨?_, ?_, ?_⟩ <;>
    · simp only [createMerakiCv, List.mem_append]
      refine Or.inl (Or.inl (Or.inl (Or.inl (Or.inr ?_))))
      simp [itSegment, h1, h2, h3]

/-- Witness for C8 at a CV with the three fields empty. -/
theorem claim_c8_witness :
    DocElem.boldLabelPara "IT/Systems: " "N/A" ∈
        createMerakiCv false ⟨"Jo", "", "", "", "", "", "", "", "", [], [], [], []⟩ ∧
    DocElem.boldLabelPara "Languages: " "N/A" ∈
        createMerakiCv false ⟨"Jo", "", "", "", "", "", "", "", "", [], [], [], []⟩ ∧
    DocElem.boldLabelPara "Interests: " "N/A" ∈
        createMerakiCv false ⟨"Jo", "", "", "", "", "", "", "", "", [], [], [], []⟩ :=
  claim_c8 false ⟨"Jo", "", "", "", "", "", "", "", "", [], [], [], []⟩ rfl rfl rfl

/-- Counterexample to C8 as stated: a CV with empty it_systems renders the
fabricated placeholder token "N/A" in the document, so absent data is not
represented as empty. -/
theorem claim_c8_counterexample :
    DocElem.boldLabelPara "Interests: " "N/A" ∈
      createMerakiCv false ⟨"Ann", "", "", "", "", "", "", "", "", [], [], [], []⟩ := by
  decide

/-! ## Router support lemmas -/

theorem trigLookup_valid {w rid : String} (h : trigLookup w = some rid) :
    (lookupRole rid).isSome = true := by
  rw [trigLookup] at h
  cases hf : triggerToRole.find? (fun p => p.1 = w) with
  | none => rw [hf] at h; simp at h
  | some p =>
    rw [hf] at h
    simp only [Option.map_some', Option.some.injEq] at h
    have hm := List.mem_of_find?_eq_some hf
    have hall : ∀ q ∈ triggerToRole, (lookupRole q.2).isSome = true := by decide
    have := hall p hm
    rwa [h] at this

theorem trigLookup_bracket {W : String} (h : W.data.head? = some '[') :
    trigLookup W = none := by
  have hfind : triggerToRole.find? (fun p => p.1 = W) = none := by
    rw [List.find?_eq_none]
    intro p hp
    simp only [decide_eq_true_eq]
    intro he
    have hh : p.1.data.head? = some '[' := by rw [he, h]
    have hkeys : ∀ q ∈ triggerToRole, ¬ q.1.data.head? = some '[' := by decide
    exact hkeys p hp hh
  rw [trigLookup, hfind]
  rfl

theorem wordsAux_first : ∀ (l acc : List Char), acc ≠ [] →
    ∃ w rest, wordsAux l acc = (acc.reverse ++ w) :: rest
  | [], acc, h => ⟨[], [], by simp [wordsAux, h]⟩
  | c :: cs, acc, h => by
    by_cases hw : isPyWs c
    · exact ⟨[], wordsAux cs [], by simp [wordsAux, hw, h]⟩
    · obtain ⟨w, rest, hwr⟩ := wordsAux_first cs (c :: acc) (by simp)
      refine ⟨c :: w, rest, ?_⟩
      rw [wordsAux, if_neg (by simp [hw]), hwr]
      simp

theorem pyStripChars_cons_head {c : Char} (h : isPyWs c = false) (l : List Char) :
    ∃ t2, pyStripChars (c :: l) = c :: t2 := by
  rw [pyStripChars, pyStripL_cons_of_not_ws h]
  rw [pyStripRChars]
  cases hr : pyStripRChars l with
  | nil => exact ⟨[], by simp [h]⟩
  | cons a as => exact ⟨a :: as, by simp⟩

theorem startsWithChar_data {t : String} {c : Char} (h : startsWithChar t c = true) :
    ∃ cs, t.data = c :: cs := by
  rw [startsWithChar] at h
  cases hd : t.data with
  | nil => rw [hd] at h; simp at h
  | cons d ds =>
    rw [hd] at h
    simp only [decide_eq_true_eq] at h
    exact ⟨ds, by rw [h]⟩

/-- A message that starts with `[` can never satisfy an explicit trigger:
no registered trigger or alias begins with a bracket. -/
theorem checkExplicitTrigger_bracket {t : String} (hb : startsWithChar t '[' = true) :
    checkExplicitTrigger t = none := by
  obtain ⟨cs, hcs⟩ := startsWithChar_data hb
  have ht : ¬ t = "" := by
    intro h; rw [h] at hcs; simp at hcs
  have hlow : (pyLower t).data = '[' :: cs.map Char.toLower := by
    simp only [pyLower, hcs, List.map_cons]
    rfl
  obtain ⟨t2, ht2⟩ := pyStripChars_cons_head (show isPyWs '[' = false by decide)
    (cs.map Char.toLower)
  have hml : (pyStrip (pyLower t)).data = '[' :: t2 := by
    show pyStripChars (pyLower t).data = _
    rw [hlow, ht2]
  obtain ⟨w, rest, hwr⟩ := wordsAux_first t2 ['['] (by simp)
  have hpw : pyWords (pyStrip (pyLower t)) =
      String.mk ('[' :: w) :: rest.map String.mk := by
    rw [pyWords, hml, wordsAux, if_neg (by decide)]
    rw [show wordsAux t2 ['['] = (['['].reverse ++ w) :: rest from hwr]
    simp
  rw [checkExplicitTrigger, if_neg ht]
  simp only []
  rw [hpw]
  simp only []
  have hs1 : startsWithChar (String.mk ('[' :: w)) '/' = false := rfl
  have hs2 : startsWithChar (String.mk ('[' :: w)) '!' = false := rfl
  rw [if_neg (by simp [hs1, hs2])]
  have : trigLookup (String.mk ('[' :: w)) = none := trigLookup_bracket rfl
  simp [Option.orElse, this]

theorem checkExplicitTrigger_valid {t rid : String}
    (h : checkExplicitTrigger t = some rid) : (lookupRole rid).isSome = true := by
  rw [checkExplicitTrigger] at h
  by_cases ht : t = ""
  · rw [if_pos ht] at h; simp at h
  · rw [if_neg ht] at h
    simp only [] at h
    cases hpw : pyWords (pyStrip (pyLower t)) with
    | nil => rw [hpw] at h; simp at h
    | cons w ws =>
      rw [hpw] at h
      simp only [] at h
      by_cases hcond : w.data.length > 1 ∧ (startsWithChar w '/' = true ∨
          startsWithChar w '!' = true)
      · rw [if_pos hcond] at h
        cases hp : trigLookup (strDropN 1 w) with
        | some r =>
          rw [hp] at h
          simp only [Option.orElse] at h
          injection h with h2
          exact h2 ▸ trigLookup_valid hp
        | none =>
          rw [hp] at h
          simp only [Option.orElse] at h
          exact trigLookup_valid h
      · rw [if_neg hcond] at h
        simp only [Option.orElse] at h
        exact trigLookup_valid h

/-- Routing analysis of the tail of `on_turn` once a valid role id and
non-empty, non-bracket content are fixed: the role LLM is called for exactly
that role, and the state is unchanged except that text-output roles store a
fresh refinement baseline for the new role. -/
theorem processWithRole_routes (o : Oracles) (now : Int) (A : List String)
    (content : String) (rid : String) (st : ConvState)
    (hval : (lookupRole rid).isSome = true) (hc : ¬ content = "")
    (hb : startsWithChar content '[' = false) :
    actionRole (processWithRole o now A content rid content st).1 = some rid ∧
    ((processWithRole o now A content rid content st).2 = st ∨
      ∃ out, (processWithRole o now A content rid content st).1 = .roleReply rid out ∧
        (processWithRole o now A content rid content st).2 =
          setRefinementState now out rid st) := by
  rw [processWithRole]
  cases hl : lookupRole rid with
  | none => rw [hl] at hval; simp at hval
  | some role =>
    simp only []
    have hfin : (if !A.isEmpty then content
        else if content ≠ "" then content else content) = content := by
      by_cases hA : A.isEmpty <;> simp [hA, ite_self]
    rw [hfin, if_neg (by simp [hc, hb])]
    cases hllm : o.roleLLM rid content with
    | error e => exact ⟨rfl, Or.inl rfl⟩
    | ok reply =>
      simp only []
      by_cases hw : role.outputWord
      · rw [if_pos hw]
        cases hp : parseCvJson reply with
        | ok _ => exact ⟨rfl, Or.inl rfl⟩
        | error e => exact ⟨rfl, Or.inl rfl⟩
      · rw [if_neg hw]
        exact ⟨rfl, Or.inr ⟨reply, rfl, rfl⟩⟩

/-- `on_turn` in refinement mode with free text and no explicit trigger:
the refine path. -/
theorem onTurn_refine_mode (o : Oracles) (now : Int) (userText : String)
    (st : ConvState) (entry : RefinementEntry)
    (href : st.refinement = some entry) (hTtl : now - entry.timestamp < refinementTtl)
    (hne : ¬ userText = "")
    (hhelp : helpKeywords.contains (pyStrip (pyLower userText)) = false)
    (hnotrig : checkExplicitTrigger userText = none) :
    onTurn o now ⟨userText, [], none⟩ st =
      (.refined (refineOutput o entry.output userText entry.roleId),
       { st with refinement := some ⟨pyTruncate60000
           (refineOutput o entry.output userText entry.roleId), entry.roleId, now⟩ }) := by
  rw [onTurn, if_neg (by rw [hhelp]; decide)]
  simp only []
  have hres : getRefinementState now st = (some entry, st) := by
    rw [getRefinementState, href]
    simp only []
    rw [if_pos hTtl]
  rw [hres]
  simp only []
  rw [if_pos ⟨hne, by trivial⟩, hnotrig]
  rfl

/-- `on_turn` in refinement mode with free text carrying an explicit
trigger: refinement is cleared and the turn continues as a normal routed
turn for the triggered role with the full user text as content. -/
theorem onTurn_refine_exit (o : Oracles) (now : Int) (userText : String)
    (st : ConvState) (entry : RefinementEntry) (rid : String)
    (href : st.refinement = some entry) (hTtl : now - entry.timestamp < refinementTtl)
    (hne : ¬ userText = "")
    (hhelp : helpKeywords.contains (pyStrip (pyLower userText)) = false)
    (htrig : checkExplicitTrigger userText = some rid) :
    onTurn o now ⟨userText, [], none⟩ st =
      processWithRole o now [] userText rid userText (clearRefinementState st) := by
  rw [onTurn, if_neg (by rw [hhelp]; decide)]
  simp only []
  have hres : getRefinementState now st = (some entry, st) := by
    rw [getRefinementState, href]
    simp only []
    rw [if_pos hTtl]
  rw [hres]
  simp only []
  rw [if_pos ⟨hne, by trivial⟩, htrig]
  rfl

/-- Claim C2: with an active RefinementContext, a free-text turn whose first
word (optionally `/`- or `!`-prefixed) matches a registered trigger or alias
exits refinement — the stored refinement context is cleared — and routes to
that role with the full text as content (text-output roles then store a fresh
baseline for the *new* role); a free-text turn with no such trigger match
stays in refinement: the refine operation is invoked with the full text as
the instruction, and its output is re-stored as the new baseline under the
same conversation and role.  (Help keywords are handled before the
refinement check, hence the non-help hypothesis.) -/
theorem claim_c2 (o : Oracles) (now : Int) (userText : String)
    (st : ConvState) (entry : RefinementEntry)
    (href : st.refinement = some entry) (hTtl : now - entry.timestamp < refinementTtl)
    (hne : ¬ userText = "")
    (hhelp : helpKeywords.contains (pyStrip (pyLower userText)) = false) :
    (∀ rid, checkExplicitTrigger userText = some rid →
      actionRole (onTurn o now ⟨userText, [], none⟩ st).1 = some rid ∧
      ((onTurn o now ⟨userText, [], none⟩ st).2.refinement = none ∨
        ∃ out, (onTurn o now ⟨userText, [], none⟩ st).1 = .roleReply rid out ∧
          (onTurn o now ⟨userText, [], none⟩ st).2.refinement =
            some ⟨pyTruncate60000 out, rid, now⟩)) ∧
    (checkExplicitTrigger userText = none →
      (onTurn o now ⟨userText, [], none⟩ st).1 =
        .refined (refineOutput o entry.output userText entry.roleId) ∧
      (onTurn o now ⟨userText, [], none⟩ st).2.refinement =
        some ⟨pyTruncate60000 (refineOutput o entry.output userText entry.roleId),
          entry.roleId, now⟩) := by
  constructor
  · intro rid htrig
    rw [onTurn_refine_exit o now userText st entry rid href hTtl hne hhelp htrig]
    have hbr : startsWithChar userText '[' = false := by
      cases hb : startsWithChar userText '[' with
      | false => rfl
      | true => rw [checkExplicitTrigger_bracket hb] at htrig; exact absurd htrig (by simp)
    obtain ⟨hact, hst⟩ := processWithRole_routes o now [] userText rid
      (clearRefinementState st) (checkExplicitTrigger_valid htrig) hne hbr
    refine ⟨hact, ?_⟩
    rcases hst with hst | ⟨out, hout, hst⟩
    · exact Or.inl (by rw [hst]; rfl)
    · exact Or.inr ⟨out, hout, by rw [hst]; rfl⟩
  · intro hnotrig
    rw [onTurn_refine_mode o now userText st entry href hTtl hne hhelp hnotrig]
    exact ⟨rfl, rfl⟩

/-- Witness for C2: with an active refinement context, "reformat this
instead" exits to role `reformat` and the old context is gone, while "make
it shorter" stays in refinement and stores the refined output as the new
baseline. -/
theorem claim_c2_witness :
    (actionRole (onTurn stubOracles 100 ⟨"reformat this instead", [], none⟩
        ⟨none, some ⟨"old output", "spec", 0⟩⟩).1 = some "reformat" ∧
      ((onTurn stubOracles 100 ⟨"reformat this instead", [], none⟩
        ⟨none, some ⟨"old output", "spec", 0⟩⟩).2.refinement = none ∨
        ∃ out, (onTurn stubOracles 100 ⟨"reformat this instead", [], none⟩
            ⟨none, some ⟨"old output", "spec", 0⟩⟩).1 = .roleReply "reformat" out ∧
          (onTurn stubOracles 100 ⟨"reformat this instead", [], none⟩
            ⟨none, some ⟨"old output", "spec", 0⟩⟩).2.refinement =
            some ⟨pyTruncate60000 out, "reformat", 100⟩)) ∧
    ((onTurn stubOracles 100 ⟨"make it shorter", [], none⟩
        ⟨none, some ⟨"old output", "spec", 0⟩⟩).1 =
      .refined (refineOutput stubOracles "old output" "make it shorter" "spec") ∧
      (onTurn stubOracles 100 ⟨"make it shorter", [], none⟩
        ⟨none, some ⟨"old output", "spec", 0⟩⟩).2.refinement =
        some ⟨pyTruncate60000 (refineOutput stubOracles "old output"
          "make it shorter" "spec"), "spec", 100⟩) :=
  ⟨(claim_c2 stubOracles 100 "reformat this instead" ⟨none, some ⟨"old output", "spec", 0⟩⟩
      ⟨"old output", "spec", 0⟩ rfl (by decide) (by decide) (by decide)).1
      "reformat" (by decide),
   (claim_c2 stubOracles 100 "make it shorter" ⟨none, some ⟨"old output", "spec", 0⟩⟩
      ⟨"old output", "spec", 0⟩ rfl (by decide) (by decide) (by decide)).2 (by decide)⟩

/-- Claim C10: when the refinement LLM call raises, `refine_output` returns
the string `"Error refining output: " + str(e)` instead of raising, and the
turn handler stores that error string (truncated at the 60000-char table
cap) as the new refinement baseline via `set_refinement_state`, overwriting
the previously stored output. -/
theorem claim_c10 (o : Oracles) (now : Int) (userText : String)
    (st : ConvState) (entry : RefinementEntry) (e : String)
    (href : st.refinement = some entry) (hTtl : now - entry.timestamp < refinementTtl)
    (hne : ¬ userText = "")
    (hhelp : helpKeywords.contains (pyStrip (pyLower userText)) = false)
    (hnotrig : checkExplicitTrigger userText = none)
    (herr : o.refineLLM entry.output userText entry.roleId = .error e) :
    refineOutput o entry.output userText entry.roleId = "Error refining output: " ++ e ∧
    onTurn o now ⟨userText, [], none⟩ st =
      (.refined ("Error refining output: " ++ e),
       { st with refinement := some ⟨pyTruncate60000 ("Error refining output: " ++ e),
           entry.roleId, now⟩ }) := by
  have hro : refineOutput o entry.output userText entry.roleId =
      "Error refining output: " ++ e := by
    rw [refineOutput, herr]
  refine ⟨hro, ?_⟩
  rw [onTurn_refine_mode o now userText st entry href hTtl hne hhelp hnotrig, hro]

/-- Claim C6: for every well-formed (clean, escape-free) StructuredCV-shaped
JSON payload — a JSON object built of strings, arrays and objects — parsing
its serialization with `parse_cv_json` returns the payload unchanged, both
bare and wrapped in markdown triple-backtick fences with or without the
`json` language tag. -/
theorem claim_c6 (f : JObj) (hclean : cleanJ (.obj f) = true) :
    parseCvJson (renderS (.obj f)) = .ok (.obj f) ∧
    parseCvJson ("```json\n" ++ renderS (.obj f) ++ "\n```") = .ok (.obj f) ∧
    parseCvJson ("```\n" ++ renderS (.obj f) ++ "\n```") = .ok (.obj f) :=
  ⟨parseCvJson_render_obj f hclean, parseCvJson_fenced_json f hclean,
   parseCvJson_fenced_plain f hclean⟩

/-- Witness for C6 at a small CV-shaped payload. -/
theorem claim_c6_witness :
    cleanJ (.obj (JObj.cons "name" (.str "Jo Smith")
      (JObj.cons "education" (.arr .nil) .nil))) = true ∧
    (parseCvJson (renderS (.obj (JObj.cons "name" (.str "Jo Smith")
        (JObj.cons "education" (.arr .nil) .nil))) ) =
      .ok (.obj (JObj.cons "name" (.str "Jo Smith")
        (JObj.cons "education" (.arr .nil) .nil))) ∧
    parseCvJson ("```json\n" ++ renderS (.obj (JObj.cons "name" (.str "Jo Smith")
        (JObj.cons "education" (.arr .nil) .nil))) ++ "\n```") =
      .ok (.obj (JObj.cons "name" (.str "Jo Smith")
        (JObj.cons "education" (.arr .nil) .nil))) ∧
    parseCvJson ("```\n" ++ renderS (.obj (JObj.cons "name" (.str "Jo Smith")
        (JObj.cons "education" (.arr .nil) .nil))) ++ "\n```") =
      .ok (.obj (JObj.cons "name" (.str "Jo Smith")
        (JObj.cons "education" (.arr .nil) .nil)))) :=
  ⟨by decide, claim_c6 _ (by decide)⟩

/-! ## routeTurn analysis for the pending-role fallback -/

theorem routeTurn_none_noPending (o : Oracles) (now : Int) (ut : String)
    (ats : List AttachmentResult) (b : Bool) (A : List String) (C : String)
    (st : ConvState) (hpend : st.pendingRole = none)
    (hC : ¬ C = "") (hB : startsWithChar C '[' = false) :
    routeTurn o now ⟨ut, ats, none⟩ b none "" A C st = (.showHelpUnsure, st) := by
  rw [routeTurn]
  simp only []
  rw [if_neg (by simp)]
  have hgp : getPendingRole now st = (none, st) := by rw [getPendingRole, hpend]
  rw [hgp]
  simp only []
  rw [if_pos ⟨hC, by simp [hB]⟩]

theorem routeTurn_none_pendingFresh (o : Oracles) (now : Int) (ut : String)
    (ats : List AttachmentResult) (b : Bool) (A : List String) (C : String)
    (st : ConvState) (rid : String) (t0 : Int)
    (hpend : st.pendingRole = some ⟨rid, t0⟩) (httl : now - t0 < pendingRoleTtl)
    (hC : ¬ C = "") (hB : startsWithChar C '[' = false) :
    routeTurn o now ⟨ut, ats, none⟩ b none "" A C st =
      processWithRole o now A C rid C (clearPendingRole st) := by
  rw [routeTurn]
  simp only []
  rw [if_neg (by simp)]
  have hgp : getPendingRole now st = (some rid, st) := by
    rw [getPendingRole, hpend]
    simp only []
    rw [if_pos httl]
  rw [hgp]
  simp only []
  rw [if_pos ⟨hC, by simp [hB]⟩]

theorem routeTurn_none_pendingExpired (o : Oracles) (now : Int) (ut : String)
    (ats : List AttachmentResult) (b : Bool) (A : List String) (C : String)
    (st : ConvState) (rid : String) (t0 : Int)
    (hpend : st.pendingRole = some ⟨rid, t0⟩) (httl : ¬ now - t0 < pendingRoleTtl)
    (hC : ¬ C = "") (hB : startsWithChar C '[' = false) :
    routeTurn o now ⟨ut, ats, none⟩ b none "" A C st =
      (.showHelpUnsure, { st with pendingRole := none }) := by
  rw [routeTurn]
  simp only []
  rw [if_neg (by simp)]
  have hgp : getPendingRole now st = (none, { st with pendingRole := none }) := by
    rw [getPendingRole, hpend]
    simp only []
    rw [if_neg httl]
  rw [hgp]
  simp only []
  rw [if_pos ⟨hC, by simp [hB]⟩]

/-- `on_turn` with no card, no active refinement context and a text that
`resolve_role` cannot route reduces to the pending-role fallback. -/
theorem onTurn_noRole (o : Oracles) (now : Int) (ut : String)
    (ats : List AttachmentResult) (st : ConvState)
    (hhelp : helpKeywords.contains (pyStrip (pyLower ut)) = false)
    (href : st.refinement = none)
    (hrr : resolveRole o ut none = (none, "")) :
    onTurn o now ⟨ut, ats, none⟩ st =
      routeTurn o now ⟨ut, ats, none⟩ false none "" (attachmentTextsOf ats)
        (combinedInputOf ut (attachmentTextsOf ats)) st := by
  rw [onTurn, if_neg (by rw [hhelp]; decide)]
  simp only []
  have hres : getRefinementState now st = (none, st) := by
    rw [getRefinementState, href]
  rw [hres]
  simp only []
  rw [hrr]

/-- Claim C3 (amended): a message turn whose attachments yield extractable
content but for which no role is resolved — no trigger keyword, no button
payload, no stored pending role — is routed to the options/help prompt
("I'm not sure what you'd like me to do with this"), NOT to the built-in
"reformat" role: the source has no attachment default. -/
theorem claim_c3 (o : Oracles) (now : Int) (ats : List AttachmentResult)
    (st : ConvState) (hpend : st.pendingRole = none) (href : st.refinement = none)
    (hA : ¬ attachmentTextsOf ats = [])
    (hC : ¬ combinedInputOf "" (attachmentTextsOf ats) = "")
    (hB : startsWithChar (combinedInputOf "" (attachmentTextsOf ats)) '[' = false) :
    onTurn o now ⟨"", ats, none⟩ st = (.showHelpUnsure, st) := by
  rw [onTurn_noRole o now "" ats st (by decide) href rfl,
    routeTurn_none_noPending o now "" ats false (attachmentTextsOf ats)
      (combinedInputOf "" (attachmentTextsOf ats)) st hpend hC hB]

/-- Witness for C3: a bare PDF upload with extractable CV text and no state
gets the "not sure" help prompt. -/
theorem claim_c3_witness :
    ¬ attachmentTextsOf [⟨"cv.pdf", "application/pdf", "John Smith, Accountant"⟩] = [] ∧
    onTurn stubOracles 0
        ⟨"", [⟨"cv.pdf", "application/pdf", "John Smith, Accountant"⟩], none⟩
        ⟨none, none⟩ =
      (.showHelpUnsure, ⟨none, none⟩) :=
  ⟨by decide,
   claim_c3 stubOracles 0 [⟨"cv.pdf", "application/pdf", "John Smith, Accountant"⟩]
     ⟨none, none⟩ rfl rfl (by decide) (by decide) (by decide)⟩

/-- Counterexample to C3 as stated: a bare file upload with extractable
content and no resolvable role is answered with the help prompt — it is not
processed under the "reformat" role (no role LLM call is made at all). -/
theorem claim_c3_counterexample :
    (onTurn stubOracles 0
        ⟨"", [⟨"cv.pdf", "application/pdf", "John Smith, Accountant"⟩], none⟩
        ⟨none, none⟩).1 = .showHelpUnsure ∧
    actionRole (onTurn stubOracles 0
        ⟨"", [⟨"cv.pdf", "application/pdf", "John Smith, Accountant"⟩], none⟩
        ⟨none, none⟩).1 ≠ some "reformat" := by
  decide

/-- Claim C5 (amended): after a role-selection button turn with empty
content stores a pending role at time T0, a later turn with usable content
(non-empty, non-bracket) **that does not itself resolve a role** is routed
to the stored role when strictly less than 300 seconds have elapsed — the
pending entry is consumed — and is NOT routed to that role once 300 seconds
or more have elapsed: the expired entry is deleted as a side effect of the
read and the turn falls through to the help prompt.  (Content that matches
a trigger or is classified to a role is routed by `resolve_role` first and
bypasses the stored pending role entirely — see the counterexample.) -/
theorem claim_c5 (o : Oracles) (now : Int) (ut : String)
    (ats : List AttachmentResult) (st : ConvState) (rid : String) (t0 : Int)
    (hpend : st.pendingRole = some ⟨rid, t0⟩) (href : st.refinement = none)
    (hval : (lookupRole rid).isSome = true)
    (hhelp : helpKeywords.contains (pyStrip (pyLower ut)) = false)
    (hrr : resolveRole o ut none = (none, ""))
    (hC : ¬ combinedInputOf ut (attachmentTextsOf ats) = "")
    (hB : startsWithChar (combinedInputOf ut (attachmentTextsOf ats)) '[' = false) :
    (now - t0 < pendingRoleTtl →
      actionRole (onTurn o now ⟨ut, ats, none⟩ st).1 = some rid ∧
      (onTurn o now ⟨ut, ats, none⟩ st).2.pendingRole = none) ∧
    (¬ now - t0 < pendingRoleTtl →
      onTurn o now ⟨ut, ats, none⟩ st =
        (.showHelpUnsure, { st with pendingRole := none })) := by
  have hmain := onTurn_noRole o now ut ats st hhelp href hrr
  constructor
  · intro httl
    rw [hmain, routeTurn_none_pendingFresh o now ut ats false (attachmentTextsOf ats)
      (combinedInputOf ut (attachmentTextsOf ats)) st rid t0 hpend httl hC hB]
    obtain ⟨hact, hst⟩ := processWithRole_routes o now (attachmentTextsOf ats)
      (combinedInputOf ut (attachmentTextsOf ats)) rid (clearPendingRole st) hval hC hB
    refine ⟨hact, ?_⟩
    rcases hst with h | ⟨out, _, h⟩ <;> rw [h] <;> rfl
  · intro httl
    rw [hmain, routeTurn_none_pendingExpired o now ut ats false (attachmentTextsOf ats)
      (combinedInputOf ut (attachmentTextsOf ats)) st rid t0 hpend httl hC hB]

/-- Witness for C5 at the claim's TTL boundary: content at 299 seconds is
routed to the stored role and the entry consumed; content at 301 seconds
falls through to the help prompt with the expired entry deleted. -/
theorem claim_c5_witness :
    (actionRole (onTurn stubOracles 299 ⟨"here is my content", [], none⟩
        ⟨some ⟨"profile", 0⟩, none⟩).1 = some "profile" ∧
      (onTurn stubOracles 299 ⟨"here is my content", [], none⟩
        ⟨some ⟨"profile", 0⟩, none⟩).2.pendingRole = none) ∧
    onTurn stubOracles 301 ⟨"here is my content", [], none⟩
        ⟨some ⟨"profile", 0⟩, none⟩ =
      (.showHelpUnsure, ⟨none, none⟩) :=
  ⟨(claim_c5 stubOracles 299 "here is my content" [] ⟨some ⟨"profile", 0⟩, none⟩
      "profile" 0 rfl rfl (by decide) (by decide) (by decide) (by decide)
      (by decide)).1 (by decide),
   (claim_c5 stubOracles 301 "here is my content" [] ⟨some ⟨"profile", 0⟩, none⟩
      "profile" 0 rfl rfl (by decide) (by decide) (by decide) (by decide)
      (by decide)).2 (by decide)⟩

/-- Counterexample to C5 as stated: with pending role "profile" stored 100
seconds ago (well inside the TTL), the next turn's usable content
`"spec hello"` is NOT routed to the stored role — `resolve_role` routes it
to role "spec" via its trigger word, and the pending entry is neither used
nor consumed. -/
theorem claim_c5_counterexample :
    (onTurn stubOracles 100 ⟨"spec hello", [], none⟩
        ⟨some ⟨"profile", 0⟩, none⟩).1 = .roleReply "spec" "llm-output" ∧
    (onTurn stubOracles 100 ⟨"spec hello", [], none⟩
        ⟨some ⟨"profile", 0⟩, none⟩).2.pendingRole = some ⟨"profile", 0⟩ := by
  decide

/-! ## Word-level lemmas for trigger resolution (claim C4) -/

theorem lcWord_props {w : String} (h : lcWord w = true) :
    w.data ≠ [] ∧ ∀ c ∈ w.data, isPyWs c = false ∧ Char.toLower c = c := by
  simp only [lcWord, Bool.and_eq_true, List.all_eq_true, Bool.not_eq_true',
    List.isEmpty_eq_false_iff_exists_mem, beq_iff_eq] at h
  obtain ⟨⟨x, hx⟩, hall⟩ := h
  refine ⟨fun hnil => by rw [hnil] at hx; simp at hx, fun c hc => ?_⟩
  have := hall c hc
  exact ⟨this.1, this.2⟩

theorem mem_joinChars : ∀ {ws : List (List Char)} {c : Char},
    c ∈ joinChars ws → c = ' ' ∨ ∃ w ∈ ws, c ∈ w := by
  intro ws
  induction ws with
  | nil => intro c h; simp [joinChars] at h
  | cons w ws ih =>
    intro c h
    cases ws with
    | nil =>
      rw [joinChars] at h
      exact Or.inr ⟨w, by simp, h⟩
    | cons w' t =>
      rw [joinChars, List.mem_append, List.mem_cons] at h
      rcases h with h | h | h
      · exact Or.inr ⟨w, by simp, h⟩
      · exact Or.inl h
      · rcases ih h with h' | ⟨u, hu, hc⟩
        · exact Or.inl h'
        · exact Or.inr ⟨u, by simp [hu], hc⟩

theorem map_toLower_fix {l : List Char} (h : ∀ c ∈ l, Char.toLower c = c) :
    l.map Char.toLower = l := by
  induction l with
  | nil => rfl
  | cons c t ih =>
    rw [List.map_cons, h c (by simp), ih (fun x hx => h x (by simp [hx]))]

theorem joinChars_concat : ∀ (ws : List (List Char)), ws ≠ [] →
    (∀ w ∈ ws, w ≠ [] ∧ ∀ c ∈ w, isPyWs c = false) →
    ∃ front c, joinChars ws = front ++ [c] ∧ isPyWs c = false := by
  intro ws
  induction ws with
  | nil => intro h; exact absurd rfl h
  | cons w t ih =>
    intro _ h
    cases t with
    | nil =>
      obtain ⟨hw, hchars⟩ := h w (by simp)
      rcases List.eq_nil_or_concat w with rfl | ⟨front, c, rfl⟩
      · exact absurd rfl hw
      · exact ⟨front, c, by rw [joinChars]; simp,
          hchars c (by simp [List.concat_eq_append])⟩
    | cons w' t' =>
      obtain ⟨front, c, hjoin, hc⟩ := ih (by simp)
        (fun u hu => h u (by simp [List.mem_cons] at hu ⊢; tauto))
      refine ⟨w ++ ' ' :: front, c, ?_, hc⟩
      rw [joinChars, hjoin]
      simp

theorem wordsAux_append_word : ∀ (w l acc : List Char),
    (∀ c ∈ w, isPyWs c = false) → wordsAux (w ++ l) acc = wordsAux l (w.reverse ++ acc)
  | [], l, acc, _ => by simp
  | c :: w', l, acc, h => by
    rw [List.cons_append, wordsAux, if_neg (by simp [h c (by simp)])]
    rw [wordsAux_append_word w' l (c :: acc) (fun x hx => h x (by simp [hx]))]
    simp

theorem wordsAux_joinChars : ∀ (ws : List (List Char)),
    (∀ w ∈ ws, w ≠ [] ∧ ∀ c ∈ w, isPyWs c = false) →
    wordsAux (joinChars ws) [] = ws := by
  intro ws
  induction ws with
  | nil => intro _; rfl
  | cons w t ih =>
    intro h
    obtain ⟨hw, hchars⟩ := h w (by simp)
    cases t with
    | nil =>
      rw [joinChars]
      have := wordsAux_append_word w [] [] hchars
      rw [List.append_nil] at this
      rw [this, wordsAux]
      rw [if_neg (by simp [hw])]
      simp
    | cons w' t' =>
      rw [joinChars]
      rw [wordsAux_append_word w (' ' :: joinChars (w' :: t')) [] hchars]
      rw [wordsAux, if_pos (by decide)]
      rw [if_neg (by simp [hw])]
      rw [ih (fun u hu => h u (by simp [List.mem_cons] at hu ⊢; tauto))]
      simp

theorem data_ne_nil_ne_empty {s : String} (h : s.data ≠ []) : ¬ s = "" := by
  intro he
  rw [he] at h
  exact h rfl

theorem pyWords_chain (w0 : String) (rest : List String)
    (hw0 : lcWord w0 = true) (h : ∀ w ∈ rest, lcWord w = true) :
    pyWords (pyStrip (pyLower (strJoin (w0 :: rest)))) = w0 :: rest := by
  have hok : ∀ w ∈ (w0 :: rest).map String.data, w ≠ [] ∧ ∀ c ∈ w, isPyWs c = false := by
    intro w hw
    simp only [List.mem_map, List.mem_cons] at hw
    obtain ⟨x, hx | hx, rfl⟩ := hw
    · obtain ⟨h1, h2⟩ := lcWord_props (hx ▸ hw0)
      exact ⟨h1, fun c hc => (h2 c hc).1⟩
    · obtain ⟨h1, h2⟩ := lcWord_props (h x hx)
      exact ⟨h1, fun c hc => (h2 c hc).1⟩
  have hlowfix : (joinChars ((w0 :: rest).map String.data)).map Char.toLower =
      joinChars ((w0 :: rest).map String.data) := by
    apply map_toLower_fix
    intro c hc
    rcases mem_joinChars hc with rfl | ⟨w, hw, hcw⟩
    · rfl
    · simp only [List.mem_map, List.mem_cons] at hw
      obtain ⟨x, hx | hx, rfl⟩ := hw
      · exact ((lcWord_props (hx ▸ hw0)).2 c hcw).2
      · exact ((lcWord_props (h x hx)).2 c hcw).2
  have hlow : (pyLower (strJoin (w0 :: rest))).data =
      joinChars ((w0 :: rest).map String.data) := by
    show (joinChars ((w0 :: rest).map String.data)).map Char.toLower = _
    exact hlowfix
  have hhead : ∃ c t, joinChars ((w0 :: rest).map String.data) = c :: t ∧
      isPyWs c = false := by
    obtain ⟨h1, h2⟩ := lcWord_props hw0
    cases hd : w0.data with
    | nil => exact absurd hd h1
    | cons c cs =>
      have hcw : isPyWs c = false := (h2 c (by rw [hd]; simp)).1
      cases hr : rest.map String.data with
      | nil =>
        refine ⟨c, cs, ?_, hcw⟩
        rw [List.map_cons, hr, joinChars, hd]
      | cons u us =>
        refine ⟨c, cs ++ ' ' :: joinChars (u :: us), ?_, hcw⟩
        rw [List.map_cons, hr, joinChars, hd]
        simp
  have hstrip : pyStripChars (joinChars ((w0 :: rest).map String.data)) =
      joinChars ((w0 :: rest).map String.data) := by
    obtain ⟨c, t, hct, hc⟩ := hhead
    obtain ⟨front, d, hfd, hdws⟩ := joinChars_concat _ (by simp) hok
    rw [hct, pyStripChars, pyStripL_cons_of_not_ws hc, ← hct, hfd,
      pyStripR_append_not_ws hdws]
  have hwords : wordsAux (joinChars ((w0 :: rest).map String.data)) [] =
      (w0 :: rest).map String.data := wordsAux_joinChars _ hok
  rw [pyWords]
  show (wordsAux (pyStripChars (pyLower (strJoin (w0 :: rest))).data) []).map String.mk = _
  rw [hlow, hstrip, hwords, List.map_map]
  have : (String.mk ∘ String.data) = id := by
    funext s
    rfl
  rw [this, List.map_id]

theorem strJoin_cons_ne_empty (w0 : String) (rest : List String)
    (hw0 : lcWord w0 = true) : ¬ strJoin (w0 :: rest) = "" := by
  apply data_ne_nil_ne_empty
  show joinChars ((w0 :: rest).map String.data) ≠ []
  obtain ⟨h1, _⟩ := lcWord_props hw0
  cases hd : w0.data with
  | nil => exact absurd hd h1
  | cons c cs =>
    cases hr : rest.map String.data with
    | nil => rw [List.map_cons, hr, joinChars, hd]; simp
    | cons u us => rw [List.map_cons, hr, joinChars, hd]; simp

/-- `resolve_role` on an input whose first word is a `/`- or `!`-prefixed
registered trigger: strips the trigger, routes there, remaining words as
content. -/
theorem resolveRole_prefixWord (o : Oracles) (w0 rid : String) (rest : List String)
    (hw0 : lcWord w0 = true) (h : ∀ w ∈ rest, lcWord w = true)
    (hlen : w0.data.length > 1)
    (hpre : startsWithChar w0 '/' = true ∨ startsWithChar w0 '!' = true)
    (hlook : trigLookup (strDropN 1 w0) = some rid) :
    resolveRole o (strJoin (w0 :: rest)) none = (some rid, strJoin rest) := by
  have hpw := pyWords_chain w0 rest hw0 h
  rw [resolveRole]
  simp only [cardRole]
  rw [resolveRoleText]
  simp only []
  rw [if_neg (strJoin_cons_ne_empty w0 rest hw0), hpw]
  simp only []
  rw [if_pos ⟨hlen, hpre⟩, hlook]
  simp only [Option.map_some']

/-- `resolve_role` on an input whose first word is exactly a registered
trigger or alias. -/
theorem resolveRole_firstWord (o : Oracles) (w0 rid : String) (rest : List String)
    (hw0 : lcWord w0 = true) (h : ∀ w ∈ rest, lcWord w = true)
    (hcond : ¬ (w0.data.length > 1 ∧ (startsWithChar w0 '/' = true ∨
      startsWithChar w0 '!' = true)))
    (hlook : trigLookup w0 = some rid) :
    resolveRole o (strJoin (w0 :: rest)) none = (some rid, strJoin rest) := by
  have hpw := pyWords_chain w0 rest hw0 h
  rw [resolveRole]
  simp only [cardRole]
  rw [resolveRoleText]
  simp only []
  rw [if_neg (strJoin_cons_ne_empty w0 rest hw0), hpw]
  simp only []
  rw [if_neg hcond]
  simp only []
  rw [hlook]
  simp only [Option.map_some']

/-- Claim C4: with the registered trigger "spec", an input whose first word
is "/spec", "!spec" or "spec" routes to role "spec" with only the
(space-joined) words after the trigger as content; an input containing
"spec" only mid-message with no first-word match, such as
"please spec this", also routes to "spec" but with the full original
message as content. -/
theorem claim_c4 (o : Oracles) (rest : List String)
    (h : ∀ w ∈ rest, lcWord w = true) :
    resolveRole o (strJoin ("/spec" :: rest)) none = (some "spec", strJoin rest) ∧
    resolveRole o (strJoin ("!spec" :: rest)) none = (some "spec", strJoin rest) ∧
    resolveRole o (strJoin ("spec" :: rest)) none = (some "spec", strJoin rest) ∧
    resolveRole o "please spec this" none = (some "spec", "please spec this") := by
  refine ⟨?_, ?_, ?_, ?_⟩
  · exact resolveRole_prefixWord o "/spec" "spec" rest (by decide) h (by decide)
      (by decide) (by decide)
  · exact resolveRole_prefixWord o "!spec" "spec" rest (by decide) h (by decide)
      (by decide) (by decide)
  · exact resolveRole_firstWord o "spec" "spec" rest (by decide) h (by decide) (by decide)
  · rfl

/-- Witness for C4 at the claim's example input "/spec please review"
(and siblings). -/
theorem claim_c4_witness :
    resolveRole stubOracles (strJoin ["/spec", "please", "review"]) none =
      (some "spec", strJoin ["please", "review"]) ∧
    resolveRole stubOracles (strJoin ["!spec", "please", "review"]) none =
      (some "spec", strJoin ["please", "review"]) ∧
    resolveRole stubOracles (strJoin ["spec", "please", "review"]) none =
      (some "spec", strJoin ["please", "review"]) ∧
    resolveRole stubOracles "please spec this" none = (some "spec", "please spec this") :=
  claim_c4 stubOracles ["please", "review"] (by decide)

/-- Witness for C10: a failing refinement call stores the error string as
the new baseline, replacing the previous good output. -/
theorem claim_c10_witness :
    refineOutput errRefineOracles "good output" "tighten it" "spec" =
      "Error refining output: boom" ∧
    onTurn errRefineOracles 100 ⟨"tighten it", [], none⟩
        ⟨none, some ⟨"good output", "spec", 0⟩⟩ =
      (.refined ("Error refining output: boom"),
       ⟨none, some ⟨pyTruncate60000 ("Error refining output: boom"), "spec", 100⟩⟩) :=
  claim_c10 errRefineOracles 100 "tighten it" ⟨none, some ⟨"good output", "spec", 0⟩⟩
    ⟨"good output", "spec", 0⟩ "boom" rfl (by decide) (by decide) (by decide)
    (by decide) rfl


/-! ## Bracket-sentinel analysis (C9) -/

theorem startsWithChar_ne_empty {s : String} {c : Char}
    (h : startsWithChar s c = true) : ¬ s = "" := by
  obtain ⟨cs, hd⟩ := startsWithChar_data h
  intro he
  rw [he] at hd
  have h2 : ([] : List Char) = c :: cs := hd
  exact List.noConfusion h2

theorem pyStrip_bracket_ne {s : String} (h : startsWithChar s '[' = true) :
    ¬ pyStrip s = "" := by
  obtain ⟨cs, hd⟩ := startsWithChar_data h
  obtain ⟨t2, ht2⟩ := pyStripChars_cons_head (show isPyWs '[' = false by decide) cs
  intro he
  have h2 : (pyStrip s).data = '[' :: t2 := by
    show pyStripChars s.data = _
    rw [hd, ht2]
  rw [he] at h2
  have h3 : ([] : List Char) = '[' :: t2 := h2
  exact List.noConfusion h3

theorem combinedInputOf_bracket {ut : String} {A : List String}
    (hu : ¬ ut = "") (h : startsWithChar (combinedInputOf ut A) '[' = true) :
    startsWithChar ut '[' = true := by
  rw [combinedInputOf] at h
  by_cases hA : A.isEmpty
  · rwa [if_pos hA] at h
  · rw [if_neg hA] at h
    simp only [] at h
    rw [if_pos hu] at h
    cases hd : ut.data with
    | nil =>
      refine absurd ?_ hu
      have h0 : ut = String.mk ut.data := rfl
      rw [h0, hd]
    | cons d ds =>
      simp only [startsWithChar] at h ⊢
      rw [String.data_append, String.data_append, hd, List.cons_append,
        List.cons_append] at h
      rw [hd]
      simp only [] at h
      exact h

theorem getRefinementState_pending (now : Int) (st : ConvState) :
    (getRefinementState now st).2.pendingRole = st.pendingRole := by
  rw [getRefinementState]
  cases hr : st.refinement with
  | none => rfl
  | some e =>
    simp only []
    split <;> rfl

theorem cardRole_valid {card : Option CardData} {rid : String}
    (h : cardRole card = some rid) : (lookupRole rid).isSome = true := by
  cases card with
  | none => simp [cardRole] at h
  | some cd =>
    rw [cardRole] at h
    by_cases ha : cd.action = some "select_role"
    · rw [if_pos ha] at h
      cases hr : cd.role with
      | none => rw [hr] at h; exact absurd h (by simp)
      | some r =>
        rw [hr] at h
        simp only [] at h
        by_cases hl : (lookupRole r).isSome = true
        · rw [if_pos hl] at h
          injection h with h2
          rw [← h2]
          exact hl
        · rw [if_neg hl] at h
          exact absurd h (by simp)
    · rw [if_neg ha] at h
      exact absurd h (by simp)

/-- Steps 1-5 of `resolve_role` on a `[`-leading message: the prefix and
first-word steps cannot match (no trigger starts with a bracket), so a hit
can only come from the substring scan or the classifier — both return a
registry-valid role id and pass the FULL message through as content. -/
theorem resolveRoleText_bracket {o : Oracles} {m rid s : String}
    (hb : startsWithChar m '[' = true)
    (h : resolveRoleText o m = (some rid, s)) :
    (lookupRole rid).isSome = true ∧ s = m := by
  obtain ⟨cs, hcs⟩ := startsWithChar_data hb
  have hm : ¬ m = "" := startsWithChar_ne_empty hb
  have hlow : (pyLower m).data = '[' :: cs.map Char.toLower := by
    simp only [pyLower, hcs, List.map_cons]
    rfl
  obtain ⟨t2, ht2⟩ := pyStripChars_cons_head (show isPyWs '[' = false by decide)
    (cs.map Char.toLower)
  have hml : (pyStrip (pyLower m)).data = '[' :: t2 := by
    show pyStripChars (pyLower m).data = _
    rw [hlow, ht2]
  obtain ⟨w, rest, hwr⟩ := wordsAux_first t2 ['['] (by simp)
  have hpw : pyWords (pyStrip (pyLower m)) =
      String.mk ('[' :: w) :: rest.map String.mk := by
    rw [pyWords, hml, wordsAux, if_neg (by decide)]
    rw [show wordsAux t2 ['['] = (['['].reverse ++ w) :: rest from hwr]
    simp
  rw [resolveRoleText, if_neg hm] at h
  simp only [] at h
  rw [hpw] at h
  simp only [] at h
  have hs1 : startsWithChar (String.mk ('[' :: w)) '/' = false := rfl
  have hs2 : startsWithChar (String.mk ('[' :: w)) '!' = false := rfl
  rw [if_neg (by simp [hs1, hs2])] at h
  simp only [] at h
  have hlk0 : trigLookup (String.mk ('[' :: w)) = none := trigLookup_bracket rfl
  rw [hlk0] at h
  simp only [Option.map_none'] at h
  cases hf : triggerToRole.find? (fun p => containsSubS (pyStrip (pyLower m)) p.1) with
  | some p =>
    rw [hf] at h
    simp only [] at h
    rw [Prod.mk.injEq] at h
    obtain ⟨h1, h2⟩ := h
    injection h1 with h1
    have hm2 := List.mem_of_find?_eq_some hf
    have hall : ∀ q ∈ triggerToRole, (lookupRole q.2).isSome = true := by decide
    refine ⟨?_, h2.symm⟩
    rw [← h1]
    exact hall p hm2
  | none =>
    rw [hf] at h
    simp only [] at h
    cases hcl : o.classify m with
    | some raw =>
      rw [hcl] at h
      simp only [] at h
      cases hlk : trigLookup (pyLower (pyStrip raw)) with
      | some r =>
        rw [hlk] at h
        simp only [] at h
        rw [Prod.mk.injEq] at h
        obtain ⟨h1, h2⟩ := h
        injection h1 with h1
        refine ⟨?_, h2.symm⟩
        rw [← h1]
        exact trigLookup_valid hlk
      | none =>
        rw [hlk] at h
        simp only [Prod.mk.injEq] at h
        exact absurd h.1 (by simp)
    | none =>
      rw [hcl] at h
      simp only [Prod.mk.injEq] at h
      exact absurd h.1 (by simp)

/-- `resolve_role` on a turn whose message is empty or `[`-leading: any role
hit is registry-valid and the returned content is empty (card button) or the
full message (substring scan / classifier). -/
theorem resolveRole_bracket {o : Oracles} {m : String} {card : Option CardData}
    {rid s : String} (hb : m = "" ∨ startsWithChar m '[' = true)
    (h : resolveRole o m card = (some rid, s)) :
    (lookupRole rid).isSome = true ∧ (s = "" ∨ s = m) := by
  rw [resolveRole] at h
  cases hc : cardRole card with
  | some r =>
    rw [hc] at h
    simp only [] at h
    rw [Prod.mk.injEq] at h
    obtain ⟨h1, h2⟩ := h
    injection h1 with h1
    refine ⟨?_, Or.inl h2.symm⟩
    rw [← h1]
    exact cardRole_valid hc
  | none =>
    rw [hc] at h
    simp only [] at h
    rcases hb with rfl | hb
    · rw [resolveRoleText, if_pos rfl] at h
      simp only [Prod.mk.injEq] at h
      exact absurd h.1 (by simp)
    · obtain ⟨hv, hs⟩ := resolveRoleText_bracket hb h
      exact ⟨hv, Or.inr hs⟩

/-- Packaging of `resolveRole_bracket` in the form `routeTurn_bracket`
needs: under a `[`-leading combined input, any resolved role is valid and
its content is empty, the combined input itself, or moot because
attachments force the combined input anyway. -/
theorem resolveRole_bracket_route {o : Oracles} {ut : String}
    {card : Option CardData} {A : List String}
    (hB : startsWithChar (combinedInputOf ut A) '[' = true) :
    ∀ rid, (resolveRole o ut card).1 = some rid →
      (lookupRole rid).isSome = true ∧
      ((resolveRole o ut card).2 = "" ∨
        (resolveRole o ut card).2 = combinedInputOf ut A ∨ A.isEmpty = false) := by
  intro rid h1
  have hb : ut = "" ∨ startsWithChar ut '[' = true := by
    by_cases hu : ut = ""
    · exact Or.inl hu
    · exact Or.inr (combinedInputOf_bracket hu hB)
  have hpair : resolveRole o ut card = (some rid, (resolveRole o ut card).2) := by
    rw [← h1]
  obtain ⟨hv, hs⟩ := resolveRole_bracket hb hpair
  refine ⟨hv, ?_⟩
  rcases hs with hs | hs
  · exact Or.inl hs
  · cases hA : A.isEmpty with
    | false => exact Or.inr (Or.inr rfl)
    | true =>
      refine Or.inr (Or.inl ?_)
      rw [hs, combinedInputOf, if_pos hA]

/-- The role-processing tail on a `[`-leading combined input: the bracket
guard fires before the role LLM call and the bracketed text is echoed back;
the conversation state is untouched. -/
theorem processWithRole_bracket (o : Oracles) (now : Int) (A : List String)
    (C : String) (rid : String) (s : String) (st : ConvState)
    (hB : startsWithChar C '[' = true)
    (hval : (lookupRole rid).isSome = true)
    (hs : s = "" ∨ s = C ∨ A.isEmpty = false) :
    processWithRole o now A C rid s st = (.sentBracket C, st) := by
  have hCne : ¬ C = "" := startsWithChar_ne_empty hB
  rw [processWithRole]
  cases hl : lookupRole rid with
  | none => rw [hl] at hval; simp at hval
  | some role =>
    simp only []
    have hfin : (if !A.isEmpty then C else if s ≠ "" then s else C) = C := by
      rcases hs with rfl | rfl | hA
      · by_cases hA : A.isEmpty <;> simp [hA]
      · by_cases hA : A.isEmpty <;> simp [hA, ite_self]
      · simp [hA]
    rw [hfin, if_pos (Or.inr hB), if_pos ⟨hCne, hB⟩]

/-- The shared routing tail on a `[`-leading combined input: whatever role
(if any) was resolved, the turn answers with the bracketed text or the help
menu, makes no role LLM call, and leaves an unexpired pending-role entry in
place. -/
theorem routeTurn_bracket (o : Oracles) (now : Int) (inp : TurnInput) (b : Bool)
    (roleId : Option String) (s : String) (A : List String) (C : String)
    (st : ConvState) (hB : startsWithChar C '[' = true)
    (hrid : ∀ rid, roleId = some rid →
      (lookupRole rid).isSome = true ∧ (s = "" ∨ s = C ∨ A.isEmpty = false)) :
    ((routeTurn o now inp b roleId s A C st).1 = .sentBracket C ∨
      (routeTurn o now inp b roleId s A C st).1 = .showHelp) ∧
    actionRole (routeTurn o now inp b roleId s A C st).1 = none ∧
    ∀ e, st.pendingRole = some e → now - e.timestamp < pendingRoleTtl →
      (routeTurn o now inp b roleId s A C st).2.pendingRole = some e := by
  have hCstrip : ¬ pyStrip C = "" := pyStrip_bracket_ne hB
  have hp1 : (if inp.card.isSome ∧ b then clearRefinementState st else st).pendingRole
      = st.pendingRole := by
    split <;> rfl
  cases roleId with
  | some rid =>
    obtain ⟨hval, hs⟩ := hrid rid rfl
    rw [routeTurn]
    rw [if_neg (fun hand => hCstrip hand.2)]
    rw [processWithRole_bracket o now A C rid s _ hB hval hs]
    refine ⟨Or.inl rfl, rfl, fun e he _ => ?_⟩
    rw [hp1]
    exact he
  | none =>
    rw [routeTurn]
    cases hsp : st.pendingRole with
    | none =>
      have h1 : getPendingRole now
          (if inp.card.isSome ∧ b then clearRefinementState st else st) =
          (none, if inp.card.isSome ∧ b then clearRefinementState st else st) := by
        rw [getPendingRole, hp1, hsp]
      rw [h1]
      simp only []
      rw [if_neg (fun hand => hand.2 hB)]
      refine ⟨Or.inr rfl, rfl, fun e he _ => ?_⟩
      exact absurd he (by simp)
    | some e0 =>
      by_cases hfr : now - e0.timestamp < pendingRoleTtl
      · have h1 : getPendingRole now
            (if inp.card.isSome ∧ b then clearRefinementState st else st) =
            (some e0.roleId,
              if inp.card.isSome ∧ b then clearRefinementState st else st) := by
          rw [getPendingRole, hp1, hsp]
          simp only []
          rw [if_pos hfr]
        rw [h1]
        simp only []
        rw [if_neg (fun hand => hand.2 hB)]
        refine ⟨Or.inr rfl, rfl, fun e he _ => ?_⟩
        rw [hp1, hsp]
        exact he
      · have h1 : getPendingRole now
            (if inp.card.isSome ∧ b then clearRefinementState st else st) =
            (none,
              { (if inp.card.isSome ∧ b then clearRefinementState st else st) with
                pendingRole := none }) := by
          rw [getPendingRole, hp1, hsp]
          simp only []
          rw [if_neg hfr]
        rw [h1]
        simp only []
        rw [if_neg (fun hand => hand.2 hB)]
        refine ⟨Or.inr rfl, rfl, fun e he hf => ?_⟩
        injection he with he
        rw [← he] at hf
        exact absurd hf hfr

/-- Claim C9 (amended): outside an actively-consumed refinement context (no
active RefinementContext, or empty user text, or a card payload), a turn
whose combined input text begins with `[` — the extraction adapter's
error-sentinel convention — makes no role-LLM call and does not consume a
stored pending role: the reply is the bracketed text itself, the help menu,
or the exit-refinement message, and an unexpired pending-role entry is still
present afterwards.  (Inside an active refinement context a `[`-leading
text IS consumed as a refinement instruction — see the counterexample.) -/
theorem claim_c9 (o : Oracles) (now : Int) (ut : String)
    (ats : List AttachmentResult) (card : Option CardData) (st : ConvState)
    (hB : startsWithChar (combinedInputOf ut (attachmentTextsOf ats)) '[' = true)
    (hNoRef : ¬ ((getRefinementState now st).1.isSome = true ∧
      ¬ ut = "" ∧ card = none)) :
    actionRole (onTurn o now ⟨ut, ats, card⟩ st).1 = none ∧
    ((onTurn o now ⟨ut, ats, card⟩ st).1 =
        .sentBracket (combinedInputOf ut (attachmentTextsOf ats)) ∨
      (onTurn o now ⟨ut, ats, card⟩ st).1 = .showHelp ∨
      (onTurn o now ⟨ut, ats, card⟩ st).1 = .exitRefinementMsg) ∧
    ∀ e, st.pendingRole = some e → now - e.timestamp < pendingRoleTtl →
      (onTurn o now ⟨ut, ats, card⟩ st).2.pendingRole = some e := by
  by_cases hhelp : helpKeywords.contains (pyStrip (pyLower ut)) = true
  · rw [onTurn, if_pos hhelp]
    exact ⟨rfl, Or.inr (Or.inl rfl), fun e he _ => he⟩
  · rw [onTurn, if_neg hhelp]
    simp only []
    cases card with
    | some cd =>
      simp only []
      by_cases hA1 : cd.action = some "exit_refinement"
      · rw [if_pos hA1]
        exact ⟨rfl, Or.inr (Or.inr rfl), fun e he _ => he⟩
      · rw [if_neg hA1]
        by_cases hA2 : cd.action = some "start_new"
        · rw [if_pos hA2]
          exact ⟨rfl, Or.inr (Or.inl rfl), fun e he _ => he⟩
        · rw [if_neg hA2]
          simp only []
          cases hrs : (getRefinementState now st).1 with
          | some entry =>
            simp only []
            rw [if_neg (fun hand => Option.noConfusion hand.2)]
            obtain ⟨h1, h2, h3⟩ := routeTurn_bracket o now ⟨ut, ats, some cd⟩ true
              (resolveRole o ut (some cd)).1 (resolveRole o ut (some cd)).2
              (attachmentTextsOf ats) (combinedInputOf ut (attachmentTextsOf ats))
              (getRefinementState now st).2 hB (resolveRole_bracket_route hB)
            refine ⟨h2, ?_,
              fun e he hf => h3 e ((getRefinementState_pending now st).trans he) hf⟩
            rcases h1 with h1 | h1
            · exact Or.inl h1
            · exact Or.inr (Or.inl h1)
          | none =>
            simp only []
            obtain ⟨h1, h2, h3⟩ := routeTurn_bracket o now ⟨ut, ats, some cd⟩ false
              (resolveRole o ut (some cd)).1 (resolveRole o ut (some cd)).2
              (attachmentTextsOf ats) (combinedInputOf ut (attachmentTextsOf ats))
              (getRefinementState now st).2 hB (resolveRole_bracket_route hB)
            refine ⟨h2, ?_,
              fun e he hf => h3 e ((getRefinementState_pending now st).trans he) hf⟩
            rcases h1 with h1 | h1
            · exact Or.inl h1
            · exact Or.inr (Or.inl h1)
    | none =>
      simp only []
      cases hrs : (getRefinementState now st).1 with
      | some entry =>
        have hut : ut = "" := by
          by_contra hne
          refine hNoRef ⟨?_, hne, rfl⟩
          rw [hrs]
          rfl
        simp only []
        rw [if_neg (fun hand => hand.1 hut)]
        obtain ⟨h1, h2, h3⟩ := routeTurn_bracket o now ⟨ut, ats, none⟩ true
          (resolveRole o ut none).1 (resolveRole o ut none).2
          (attachmentTextsOf ats) (combinedInputOf ut (attachmentTextsOf ats))
          (getRefinementState now st).2 hB (resolveRole_bracket_route hB)
        refine ⟨h2, ?_,
          fun e he hf => h3 e ((getRefinementState_pending now st).trans he) hf⟩
        rcases h1 with h1 | h1
        · exact Or.inl h1
        · exact Or.inr (Or.inl h1)
      | none =>
        simp only []
        obtain ⟨h1, h2, h3⟩ := routeTurn_bracket o now ⟨ut, ats, none⟩ false
          (resolveRole o ut none).1 (resolveRole o ut none).2
          (attachmentTextsOf ats) (combinedInputOf ut (attachmentTextsOf ats))
          (getRefinementState now st).2 hB (resolveRole_bracket_route hB)
        refine ⟨h2, ?_,
          fun e he hf => h3 e ((getRefinementState_pending now st).trans he) hf⟩
        rcases h1 with h1 | h1
        · exact Or.inl h1
        · exact Or.inr (Or.inl h1)

/-- Witness for C9 (amended) at a turn whose only content is an attachment
extraction error sentinel, with a fresh pending role stored: the sentinel is
echoed back (or a prompt shown), no role LLM call is made, and the pending
entry survives. -/
theorem claim_c9_witness :
    actionRole (onTurn stubOracles 10
        ⟨"", [⟨"cv.pdf", "application/pdf", "[Unsupported file type: pdf]"⟩], none⟩
        ⟨some ⟨"spec", 5⟩, none⟩).1 = none ∧
    ((onTurn stubOracles 10
        ⟨"", [⟨"cv.pdf", "application/pdf", "[Unsupported file type: pdf]"⟩], none⟩
        ⟨some ⟨"spec", 5⟩, none⟩).1 =
        .sentBracket (combinedInputOf ""
          (attachmentTextsOf
            [⟨"cv.pdf", "application/pdf", "[Unsupported file type: pdf]"⟩])) ∨
      (onTurn stubOracles 10
        ⟨"", [⟨"cv.pdf", "application/pdf", "[Unsupported file type: pdf]"⟩], none⟩
        ⟨some ⟨"spec", 5⟩, none⟩).1 = .showHelp ∨
      (onTurn stubOracles 10
        ⟨"", [⟨"cv.pdf", "application/pdf", "[Unsupported file type: pdf]"⟩], none⟩
        ⟨some ⟨"spec", 5⟩, none⟩).1 = .exitRefinementMsg) ∧
    ∀ e, (⟨some ⟨"spec", 5⟩, none⟩ : ConvState).pendingRole = some e →
      (10 : Int) - e.timestamp < pendingRoleTtl →
      (onTurn stubOracles 10
        ⟨"", [⟨"cv.pdf", "application/pdf", "[Unsupported file type: pdf]"⟩], none⟩
        ⟨some ⟨"spec", 5⟩, none⟩).2.pendingRole = some e :=
  claim_c9 stubOracles 10 ""
    [⟨"cv.pdf", "application/pdf", "[Unsupported file type: pdf]"⟩] none
    ⟨some ⟨"spec", 5⟩, none⟩ (by decide) (fun h => h.2.1 rfl)

/-- Counterexample to C9 as stated: with an ACTIVE refinement context, a
free-text message beginning with `[` is not short-circuited — it is consumed
as a refinement instruction and the refinement LLM is invoked on it, so the
reply is the refined output, not the bracketed text or a re-prompt. -/
theorem claim_c9_counterexample :
    startsWithChar (combinedInputOf "[Confidential] John Smith CV"
      (attachmentTextsOf [])) '[' = true ∧
    (onTurn stubOracles 10 ⟨"[Confidential] John Smith CV", [], none⟩
        ⟨none, some ⟨"previous output", "profile", 0⟩⟩).1 =
      .refined "refined-output" :=
  ⟨rfl, rfl⟩

end MerakiBot
